import Mathlib

/-!
Verification development for the fscad component-composition layer
(`fscad.py`).  The geometric kernel (Fusion 360's `adsk` API) is an external
collaborator; matrices, vectors and planes that the kernel hands back are
modelled exactly over the rationals, and kernel bodies are modelled as
symbolic terms recording which kernel operations produced them.  All stateful
Python methods are embedded as explicit state-passing functions on a tree of
component nodes.
-/

set_option maxHeartbeats 1000000

/-! ### Exact 3-vectors, 3x3 matrices and affine transforms

`adsk.core.Vector3D` / `Point3D` / `Matrix3D` are modelled over `ℚ`.  A
`Matrix3D` is an affine transform: a 3x3 linear part plus a translation
column.  Fusion's `a.transformBy(b)` composes so that `a` is applied first
and `b` second, i.e. the result is the matrix product `b * a`.
-/

structure Vec3 where
  x : ℚ
  y : ℚ
  z : ℚ
deriving DecidableEq

def Vec3.zero : Vec3 := ⟨0, 0, 0⟩

def Vec3.add (a b : Vec3) : Vec3 := ⟨a.x + b.x, a.y + b.y, a.z + b.z⟩

def Vec3.neg (a : Vec3) : Vec3 := ⟨-a.x, -a.y, -a.z⟩

def Vec3.sub (a b : Vec3) : Vec3 := ⟨a.x - b.x, a.y - b.y, a.z - b.z⟩

def Vec3.dot (a b : Vec3) : ℚ := a.x * b.x + a.y * b.y + a.z * b.z

def Vec3.cross (a b : Vec3) : Vec3 :=
  ⟨a.y * b.z - a.z * b.y, a.z * b.x - a.x * b.z, a.x * b.y - a.y * b.x⟩

structure Mat3 where
  m11 : ℚ
  m12 : ℚ
  m13 : ℚ
  m21 : ℚ
  m22 : ℚ
  m23 : ℚ
  m31 : ℚ
  m32 : ℚ
  m33 : ℚ
deriving DecidableEq

def Mat3.idM : Mat3 := ⟨1, 0, 0, 0, 1, 0, 0, 0, 1⟩

def Mat3.mul (a b : Mat3) : Mat3 :=
  ⟨a.m11 * b.m11 + a.m12 * b.m21 + a.m13 * b.m31,
   a.m11 * b.m12 + a.m12 * b.m22 + a.m13 * b.m32,
   a.m11 * b.m13 + a.m12 * b.m23 + a.m13 * b.m33,
   a.m21 * b.m11 + a.m22 * b.m21 + a.m23 * b.m31,
   a.m21 * b.m12 + a.m22 * b.m22 + a.m23 * b.m32,
   a.m21 * b.m13 + a.m22 * b.m23 + a.m23 * b.m33,
   a.m31 * b.m11 + a.m32 * b.m21 + a.m33 * b.m31,
   a.m31 * b.m12 + a.m32 * b.m22 + a.m33 * b.m32,
   a.m31 * b.m13 + a.m32 * b.m23 + a.m33 * b.m33⟩

def Mat3.mulVec (a : Mat3) (v : Vec3) : Vec3 :=
  ⟨a.m11 * v.x + a.m12 * v.y + a.m13 * v.z,
   a.m21 * v.x + a.m22 * v.y + a.m23 * v.z,
   a.m31 * v.x + a.m32 * v.y + a.m33 * v.z⟩

def Mat3.det (a : Mat3) : ℚ :=
  a.m11 * (a.m22 * a.m33 - a.m23 * a.m32)
    - a.m12 * (a.m21 * a.m33 - a.m23 * a.m31)
    + a.m13 * (a.m21 * a.m32 - a.m22 * a.m31)

def Mat3.transpose (a : Mat3) : Mat3 :=
  ⟨a.m11, a.m21, a.m31, a.m12, a.m22, a.m32, a.m13, a.m23, a.m33⟩

/-- Inverse of a 3x3 matrix via the adjugate; yields the zero matrix when the
determinant is zero (division by zero in `ℚ` gives `0`). -/
def Mat3.invM (a : Mat3) : Mat3 :=
  let d := a.det
  ⟨(a.m22 * a.m33 - a.m23 * a.m32) / d,
   (a.m13 * a.m32 - a.m12 * a.m33) / d,
   (a.m12 * a.m23 - a.m13 * a.m22) / d,
   (a.m23 * a.m31 - a.m21 * a.m33) / d,
   (a.m11 * a.m33 - a.m13 * a.m31) / d,
   (a.m13 * a.m21 - a.m11 * a.m23) / d,
   (a.m21 * a.m32 - a.m22 * a.m31) / d,
   (a.m12 * a.m31 - a.m11 * a.m32) / d,
   (a.m11 * a.m22 - a.m12 * a.m21) / d⟩

/-- An affine transform (Fusion `Matrix3D`): linear part plus translation. -/
structure Affine where
  linear : Mat3
  trans : Vec3
deriving DecidableEq

/-- `Matrix3D.create()`: the identity transform. -/
def Affine.idA : Affine := ⟨Mat3.idM, Vec3.zero⟩

/-- Composition `a.comp b`: apply `b` first, then `a` (matrix product `a * b`).
Fusion's `m.transformBy(n)` assigns `m := n.comp m`. -/
def Affine.comp (a b : Affine) : Affine :=
  ⟨a.linear.mul b.linear, (a.linear.mulVec b.trans).add a.trans⟩

def Affine.apply (a : Affine) (v : Vec3) : Vec3 :=
  (a.linear.mulVec v).add a.trans

def Affine.det (a : Affine) : ℚ := a.linear.det

/-- `Matrix3D.invert()`: the affine inverse (junk values when the linear part
is singular). -/
def Affine.invA (a : Affine) : Affine :=
  let li := a.linear.invM
  ⟨li, (li.mulVec a.trans).neg⟩

/-- A pure translation matrix, as built by `Matrix3D.create()` followed by
assigning its `translation` property. -/
def Affine.translationM (v : Vec3) : Affine := ⟨Mat3.idM, v⟩

/-- The diagonal scale matrix built by `Component.scale` via `setCell`. -/
def Affine.scaleM (sx sy sz : ℚ) : Affine :=
  ⟨⟨sx, 0, 0, 0, sy, 0, 0, 0, sz⟩, Vec3.zero⟩

/-! ### Planes, kernel bodies and errors

A `PlaneG` models `adsk.core.Plane` (a face's supporting plane) as an origin
point plus a normal vector.  `isCoPlanarTo` is the kernel's geometric test:
the two planes describe the same point set, i.e. the normals are parallel and
the other origin lies on this plane.

Kernel bodies (`adsk.fusion.BRepBody`) are opaque handles; we model them as
symbolic terms recording the kernel calls that produced them.  `brep().copy`
returns an independent handle with identical shape, which under value
semantics is the same term.  Only the primitives exercised by the claims
(`Box`, `Rect`) are given constructors.
-/

structure PlaneG where
  origin : Vec3
  normal : Vec3
deriving DecidableEq

/-- Kernel `Plane.isCoPlanarTo`: parallel normals and the other plane's origin
lies in this plane. -/
def PlaneG.isCoPlanarTo (p q : PlaneG) : Bool :=
  decide (Vec3.cross p.normal q.normal = Vec3.zero)
    && decide (Vec3.dot p.normal (Vec3.sub q.origin p.origin) = 0)

/-- Transforming a plane by an affine map: the origin maps directly; the
normal maps by the inverse transpose of the linear part (the kernel performs
this when `brep().transform` is applied to a body owning the face). -/
def PlaneG.transformP (m : Affine) (p : PlaneG) : PlaneG :=
  ⟨m.apply p.origin, (m.linear.invM.transpose).mulVec p.normal⟩

inductive BoolType where
  | unionT
  | differenceT
  | intersectionT
deriving DecidableEq

inductive Body where
  /-- `brep().createBox(...)` as built by `Box.__init__(x, y, z)`. -/
  | boxPrim (x y z : ℚ)
  /-- the face body built by `Rect.__init__(x, y)` (bottom face of a thin box). -/
  | rectFace (x y : ℚ)
  /-- `brep().transform(body, m)` applied to a copy of `b`. -/
  | transformed (m : Affine) (b : Body)
  /-- `brep().booleanOperation(target, tool, t)`: the mutated target. -/
  | boolRes (t : BoolType) (target tool : Body)
deriving DecidableEq

/-- The errors raised by the embedded code.  Python messages:
`nonUniformScale` = ValueError "Non-uniform scaling is not currently supported";
`unionPlanarWith3d` = ValueError "Cannot union a planar entity with a 3d entity";
`unionNonCoplanar` = ValueError "Cannot union planar entities that are non-coplanar";
`subtractPlanarFrom3d` = ValueError "Cannot subtract a planar entity from a 3d entity";
`subtractNonCoplanar` = ValueError "Cannot subtract planar entities that are non-coplanar";
`intersectNonCoplanar` = ValueError "Cannot intersect planar entities that are non-coplanar";
`kernelNullBody` = the kernel failure from passing `None` as a body
(e.g. `brep().copy(None)` or `booleanOperation(None, ...)`);
`iterateNone` = the TypeError from iterating over a `None` body list. -/
inductive Err where
  | nonUniformScale
  | unionPlanarWith3d
  | unionNonCoplanar
  | subtractPlanarFrom3d
  | subtractNonCoplanar
  | intersectNonCoplanar
  | kernelNullBody
  | iterateNone
deriving DecidableEq

/-- An exact stand-in for an angle argument of `rotate` (degrees): `isZero`
mirrors the source's `rx != 0` skip test, and `cosv`/`sinv` are the exact
cosine and sine of the angle that `math.radians` + `setToRotation` would
produce. -/
structure AngleQ where
  isZero : Bool
  cosv : ℚ
  sinv : ℚ
deriving DecidableEq

/-- `Matrix3D.setToRotation(angle, x-axis, center)`: rotation about the X axis
through `center`, i.e. `T(center) ∘ R ∘ T(-center)`. -/
def Affine.rotXA (a : AngleQ) (center : Vec3) : Affine :=
  (Affine.translationM center).comp
    ((⟨⟨1, 0, 0, 0, a.cosv, -a.sinv, 0, a.sinv, a.cosv⟩, Vec3.zero⟩ : Affine).comp
      (Affine.translationM center.neg))

/-- `Matrix3D.setToRotation(angle, y-axis, center)`. -/
def Affine.rotYA (a : AngleQ) (center : Vec3) : Affine :=
  (Affine.translationM center).comp
    ((⟨⟨a.cosv, 0, a.sinv, 0, 1, 0, -a.sinv, 0, a.cosv⟩, Vec3.zero⟩ : Affine).comp
      (Affine.translationM center.neg))

/-- `Matrix3D.setToRotation(angle, z-axis, center)`. -/
def Affine.rotZA (a : AngleQ) (center : Vec3) : Affine :=
  (Affine.translationM center).comp
    ((⟨⟨a.cosv, -a.sinv, 0, a.sinv, a.cosv, 0, 0, 0, 1⟩, Vec3.zero⟩ : Affine).comp
      (Affine.translationM center.neg))

/-! ### The component tree

A `Component` mirrors the Python object graph rooted at a node: the node's
own fields (`NodeData`) plus its ordered children.  The `_parent` back
reference is represented by the tree structure itself: stateful methods on a
node take an explicit `pw : Affine` argument standing for the world transform
the node's parent chain would report (`Affine.idA` for a parentless node).

`Payload` holds the per-class fields:
- `shape body planar` covers `Shape`/`PlanarShape` leaves (`Box`, `Cylinder`,
  `Sphere` with `planar = false`, whose inherited `get_plane` returns `None`;
  `Rect`, `Circle` with `planar = true`, whose `get_plane` reads the
  supporting plane off the first world-transformed cached body).
- `union ubody` is `Union._body` (the source also writes `self._plane` when
  seeding; that attribute is never read anywhere and is omitted).
- `difference dbodies` is `Difference._bodies`.
- `intersection ibodies cachedPlane cachedPlanePopulated` is
  `Intersection._bodies` plus its plane cache.
-/

inductive Payload where
  | shape (body : Body) (planar : Bool)
  | union (ubody : Option Body)
  | difference (dbodies : Option (List Body))
  | intersection (ibodies : Option (List Body)) (cachedPlane : Option PlaneG)
      (cachedPlanePopulated : Bool)
deriving DecidableEq

structure NodeData where
  name : Option String
  localTransform : Affine
  cachedBodies : Option (List Body)
  cachedBBox : Option (Vec3 × Vec3)
  cachedWorld : Option Affine
  /-- `ComponentWithChildren._cached_inverse_transform`; the field exists only
  on composite kinds in the source and is never read on leaves. -/
  cachedInverse : Option Affine
  payload : Payload
deriving DecidableEq

mutual
inductive Component where
  | node (data : NodeData) (children : ComponentList)
deriving DecidableEq
inductive ComponentList where
  | nil
  | cons (c : Component) (cs : ComponentList)
deriving DecidableEq
end

def Component.dataOf : Component → NodeData
  | .node d _ => d

def Component.childrenOf : Component → ComponentList
  | .node _ cs => cs

def Component.localOf (c : Component) : Affine := c.dataOf.localTransform

def Component.payloadOf (c : Component) : Payload := c.dataOf.payload

def Component.withData (d : NodeData) : Component → Component
  | .node _ cs => .node d cs

def Component.withLocal (m : Affine) : Component → Component
  | .node d cs => .node { d with localTransform := m } cs

def Component.withCachedWorld (w : Option Affine) : Component → Component
  | .node d cs => .node { d with cachedWorld := w } cs

def Component.withCachedInverse (w : Option Affine) : Component → Component
  | .node d cs => .node { d with cachedInverse := w } cs

def Component.withCachedBodies (bs : Option (List Body)) : Component → Component
  | .node d cs => .node { d with cachedBodies := bs } cs

def Component.withPayload (p : Payload) : Component → Component
  | .node d cs => .node { d with payload := p } cs

def ComponentList.get? : ComponentList → Nat → Option Component
  | .nil, _ => none
  | .cons c _, 0 => some c
  | .cons _ cs, n + 1 => cs.get? n

def ComponentList.setAt : ComponentList → Nat → Component → ComponentList
  | .nil, _, _ => .nil
  | .cons _ cs, 0, c' => .cons c' cs
  | .cons c cs, n + 1, c' => .cons c (cs.setAt n c')

def ComponentList.append : ComponentList → Component → ComponentList
  | .nil, c => .cons c .nil
  | .cons a cs, c => .cons a (cs.append c)

def ComponentList.toListC : ComponentList → List Component
  | .nil => []
  | .cons c cs => c :: cs.toListC

/-- `self._children.append(child)` together with `child._parent = self`. -/
def Component.appendChild (c : Component) (child : Component) : Component :=
  match c with
  | .node d cs => .node d (cs.append child)

/-! ### Caches and their invalidation -/

/-- `Component._get_world_transform` restricted to a single node: `pw` is the
world transform reported by the parent chain (`Affine.idA` for a parentless
node, in which case `pw.comp local = local`).  Uses the node's cache when
populated, otherwise computes `parentWorld ∘ local` and caches it. -/
def NodeData.getWorldD (pw : Affine) (d : NodeData) : Affine × NodeData :=
  match d.cachedWorld with
  | some w => (w, d)
  | none =>
    let w := pw.comp d.localTransform
    (w, { d with cachedWorld := some w })

mutual
/-- `Component._reset_cache` together with its overrides: clears the cached
bodies, bounding box and world transform; on composite kinds additionally the
cached inverse transform (`ComponentWithChildren._reset_cache`) and on
`Intersection` the plane cache (`Intersection._reset_cache`); recurses into
every child. -/
def Component.resetCache : Component → Component
  | .node d cs =>
    let p := match d.payload with
      | .intersection ib _ _ => Payload.intersection ib none false
      | q => q
    let inv : Option Affine := match d.payload with
      | .shape _ _ => d.cachedInverse
      | _ => none
    .node { d with cachedBodies := none, cachedBBox := none, cachedWorld := none,
                   cachedInverse := inv, payload := p } cs.resetCacheL
def ComponentList.resetCacheL : ComponentList → ComponentList
  | .nil => .nil
  | .cons c cs => .cons c.resetCache cs.resetCacheL
end

mutual
/-- All three caches named by the spec (bodies, bounding box, world
transform) are empty on this node and on every descendant. -/
def Component.allCleared : Component → Bool
  | .node d cs =>
    d.cachedBodies.isNone && d.cachedBBox.isNone && d.cachedWorld.isNone && cs.allClearedL
def ComponentList.allClearedL : ComponentList → Bool
  | .nil => true
  | .cons c cs => c.allCleared && cs.allClearedL
end

mutual
/-- The node with every cache field (including composite-specific ones)
stripped, recursively: two components are equal up to caches when their
erasures are equal. -/
def Component.eraseCaches : Component → Component
  | .node d cs =>
    .node { d with cachedBodies := none, cachedBBox := none, cachedWorld := none,
                   cachedInverse := none,
                   payload := match d.payload with
                     | .intersection ib _ _ => Payload.intersection ib none false
                     | q => q } cs.eraseCachesL
def ComponentList.eraseCachesL : ComponentList → ComponentList
  | .nil => .nil
  | .cons c cs => .cons c.eraseCaches cs.eraseCachesL
end

mutual
/-- World-transform cache coherence: every populated world-transform cache in
the tree holds exactly the transform the parent chain determines.  Freshly
constructed trees satisfy it (all caches empty), and it is the invariant
maintained by every mutation and query. -/
def Component.cacheOK (pw : Affine) : Component → Bool
  | .node d cs =>
    (match d.cachedWorld with
     | none => true
     | some w => decide (w = pw.comp d.localTransform)) && cs.cacheOKL (pw.comp d.localTransform)
def ComponentList.cacheOKL (pw : Affine) : ComponentList → Bool
  | .nil => true
  | .cons c cs => c.cacheOK pw && cs.cacheOKL pw
end

/-! ### Addressing nodes by paths from the root -/

def Component.subtreeAt : Component → List Nat → Option Component
  | c, [] => some c
  | .node _ cs, i :: p => (cs.get? i).bind fun ch => ch.subtreeAt p

def Component.dataAt (c : Component) (p : List Nat) : Option NodeData :=
  (c.subtreeAt p).map Component.dataOf

/-- Replace the subtree at `p` by the (possibly failing) image of `f`;
`none` when the path is invalid or `f` fails. -/
def Component.modifyAtO : Component → List Nat → (Component → Option Component) → Option Component
  | c, [], f => f c
  | .node d cs, i :: p, f =>
    (cs.get? i).bind fun ch =>
      (Component.modifyAtO ch p f).map fun ch' => Component.node d (cs.setAt i ch')

/-- The mathematically-true world transform of the node at `p`: the
composition of the local transforms along the path (deepest applied first),
under ambient parent world `pw`.  This is the cache-free specification that
`_get_world_transform` is supposed to compute. -/
def Component.trueWorldAt (pw : Affine) : Component → List Nat → Option Affine
  | c, [] => some (pw.comp c.localOf)
  | .node d cs, i :: p =>
    (cs.get? i).bind fun ch => Component.trueWorldAt (pw.comp d.localTransform) ch p

/-- The true world transform of the parent of the node at `p` (i.e. the
ambient transform the node's own local transform composes into). -/
def Component.ambientAt (pw : Affine) : Component → List Nat → Option Affine
  | _, [] => some pw
  | .node d cs, i :: p =>
    (cs.get? i).bind fun ch => Component.ambientAt (pw.comp d.localTransform) ch p

/-- The recomputation branch of `_get_world_transform` along a path: every
node from here down to the target computes `parentWorld ∘ local` and caches
it (`pw` is the world transform of this node's parent, already known). -/
def Component.fillWorld (pw : Affine) : Component → List Nat → Option (Affine × Component)
  | .node d cs, [] =>
    let w := pw.comp d.localTransform
    some (w, .node { d with cachedWorld := some w } cs)
  | .node d cs, i :: p =>
    let w := pw.comp d.localTransform
    (cs.get? i).bind fun ch =>
      (Component.fillWorld w ch p).map fun x =>
        (x.1, Component.node { d with cachedWorld := some w } (cs.setAt i x.2))

inductive WTStep where
  | hit (w : Affine) (c : Component)
  | miss

/-- The lazy bottom-up cache lookup of `_get_world_transform`, expressed as a
downward traversal over the path: the target consults its own cache first; a
cache hit at some node on the chain answers without consulting that node's
ancestors, and the nodes below the hit recompute and refill via `fillWorld`;
`miss` means no node from the target up through this subtree's top had a
cached world transform (so the caller must keep walking up). -/
def Component.getWTAux : Component → List Nat → Option WTStep
  | c, [] =>
    match c.dataOf.cachedWorld with
    | some w => some (.hit w c)
    | none => some .miss
  | .node d cs, i :: p =>
    (cs.get? i).bind fun ch =>
      (Component.getWTAux ch p).bind fun st =>
        match st with
        | .hit w ch' => some (WTStep.hit w (.node d (cs.setAt i ch')))
        | .miss =>
          match d.cachedWorld with
          | some pw =>
            (Component.fillWorld pw ch p).map fun x => WTStep.hit x.1 (.node d (cs.setAt i x.2))
          | none => some WTStep.miss

/-- `Component._get_world_transform` invoked on the node at `path` of the
tree rooted at `root` (the root itself has no parent): the transform the call
returns, together with the tree as left behind (caches populated along the
recomputed part of the chain).  `none` only for an invalid path. -/
def Component.getWorldTransformAt (root : Component) (path : List Nat) :
    Option (Affine × Component) :=
  (root.getWTAux path).bind fun st =>
    match st with
    | .hit w r => some (w, r)
    | .miss => root.fillWorld Affine.idA path

/-! ### The transform mutators -/

/-- `Component.translate(tx, ty, tz)`; `tx`/`ty`/`tz` delegate to it. -/
def Component.translate (tx ty tz : ℚ) (c : Component) : Component :=
  Component.resetCache (c.withLocal ((Affine.translationM ⟨tx, ty, tz⟩).comp c.localOf))

def Component.tx (v : ℚ) (c : Component) : Component := Component.translate v 0 0 c

def Component.ty (v : ℚ) (c : Component) : Component := Component.translate 0 v 0 c

def Component.tz (v : ℚ) (c : Component) : Component := Component.translate 0 0 v c

/-- `Component.rotate(rx, ry, rz, center)`: X, Y then Z axis rotations about
`center` (default origin), skipping any axis whose angle is exactly zero; the
Python list/iterable form of `center` is normalized to a point and is modelled
directly as a `Vec3`.  `rx`/`ry`/`rz` delegate to it. -/
def Component.rotate (rx ry rz : AngleQ) (center : Option Vec3) (c : Component) : Component :=
  let centerPoint := center.getD Vec3.zero
  let t0 := c.localOf
  let t1 := if rx.isZero then t0 else (Affine.rotXA rx centerPoint).comp t0
  let t2 := if ry.isZero then t1 else (Affine.rotYA ry centerPoint).comp t1
  let t3 := if rz.isZero then t2 else (Affine.rotZA rz centerPoint).comp t2
  Component.resetCache (c.withLocal t3)

def Component.rxR (a : AngleQ) (center : Option Vec3) (c : Component) : Component :=
  Component.rotate a ⟨true, 1, 0⟩ ⟨true, 1, 0⟩ center c

def Component.ryR (a : AngleQ) (center : Option Vec3) (c : Component) : Component :=
  Component.rotate ⟨true, 1, 0⟩ a ⟨true, 1, 0⟩ center c

def Component.rzR (a : AngleQ) (center : Option Vec3) (c : Component) : Component :=
  Component.rotate ⟨true, 1, 0⟩ ⟨true, 1, 0⟩ a center c

/-- `Component.scale(sx, sy, sz, center)`: raises `ValueError` unless the
absolute scale factors are all equal — the check precedes every mutation, so
on error the local transform and caches are untouched; otherwise composes
translate(-center), the diagonal scale and translate(+center) into the local
transform (the source builds `T(center)`, inverts it, applies it, applies the
scale, inverts the translation back and applies that). -/
def Component.scale (sx sy sz : ℚ) (center : Option Vec3) (c : Component) :
    Except Err Component :=
  if |sx| ≠ |sy| ∨ |sy| ≠ |sz| then .error .nonUniformScale
  else
    let centerPoint := center.getD Vec3.zero
    let translation := (Affine.translationM centerPoint).invA
    let t1 := translation.comp c.localOf
    let t2 := (Affine.scaleM sx sy sz).comp t1
    let t3 := translation.invA.comp t2
    .ok (Component.resetCache (c.withLocal t3))

/-- `Component.place(x, y, z)`: translates by the x-component of `x`, the
y-component of `y` and the z-component of `z` (each argument being the
`Translation` an alignment expression produced; default the null vector). -/
def Component.place (x y z : Vec3) (c : Component) : Component :=
  Component.resetCache (c.withLocal ((Affine.translationM ⟨x.x, y.y, z.z⟩).comp c.localOf))

/-- One transform-affecting mutation, applied to the node it is invoked on.
`invalidate` is a bare `_reset_cache` call (a cache invalidation without a
transform change). -/
inductive Mutation where
  | translate (tx ty tz : ℚ)
  | rotate (rx ry rz : AngleQ) (center : Option Vec3)
  | scale (sx sy sz : ℚ) (center : Option Vec3)
  | place (x y z : Vec3)
  | invalidate

/-- Runs the mutation; `none` when it raised (a failed `scale` leaves the
tree unchanged, since its check precedes any mutation). -/
def Mutation.applyM : Mutation → Component → Option Component
  | .translate a b c, comp => some (Component.translate a b c comp)
  | .rotate a b c ctr, comp => some (Component.rotate a b c ctr comp)
  | .scale a b c ctr, comp => (Component.scale a b c ctr comp).toOption
  | .place a b c, comp => some (Component.place a b c comp)
  | .invalidate, comp => some (Component.resetCache comp)

/-- A mutation invoked on the node at a given path of the tree. -/
def Component.applyMutationAt (root : Component) (pm : List Nat × Mutation) :
    Option Component :=
  Component.modifyAtO root pm.1 pm.2.applyM

/-- A whole sequence of mutations, each at its own node. -/
def Component.applyAll (ms : List (List Nat × Mutation)) (root : Component) :
    Option Component :=
  ms.foldlM Component.applyMutationAt root

/-! ### Bodies and planes -/

/-- `_raw_bodies` per class: the untransformed owned bodies.  An empty
`Union` returns `[self._body] = [None]` and the subsequent `brep().copy(None)`
in `bodies()` fails; an empty `Difference`/`Intersection` raises a
`TypeError` at `tuple(self._bodies)` when `_bodies` is `None`. -/
def Payload.rawBodies : Payload → Except Err (List Body)
  | .shape b _ => .ok [b]
  | .union (some b) => .ok [b]
  | .union none => .error .kernelNullBody
  | .difference (some bs) => .ok bs
  | .difference none => .error .iterateNone
  | .intersection (some bs) _ _ => .ok bs
  | .intersection none _ _ => .error .iterateNone

/-- `Component.bodies()` on a node whose parent chain reports `pw`: the raw
bodies copied and transformed into world space, then cached. -/
def NodeData.bodiesD (pw : Affine) (d : NodeData) : Except Err (List Body × NodeData) :=
  match d.cachedBodies with
  | some bs => .ok (bs, d)
  | none =>
    let wd := d.getWorldD pw
    match wd.2.payload.rawBodies with
    | .error e => .error e
    | .ok raws =>
      let bs := raws.map (Body.transformed wd.1)
      .ok (bs, { wd.2 with cachedBodies := some bs })

/-- The supporting-plane geometry the kernel reports for the first face of a
planar body (`faces[0].geometry` of the cached body): the primitive's base
plane (z = 0 for the face `Rect` builds) carried through every transform
applied to the body. -/
def Body.facePlane : Body → Option PlaneG
  | .rectFace _ _ => some ⟨Vec3.zero, ⟨0, 0, 1⟩⟩
  | .transformed m b => (Body.facePlane b).map (PlaneG.transformP m)
  | .boxPrim _ _ _ => none
  | .boolRes _ t _ => Body.facePlane t

mutual
/-- `get_plane()` dispatch.  `Component.get_plane` (solid leaves) returns
`None`; `Rect.get_plane`/`Circle.get_plane` read the supporting plane off the
first world-transformed cached body; `Union.get_plane`/`Difference.get_plane`
delegate to the first child (or `None` with no children);
`Intersection.get_plane` caches the first non-null plane among its children.
`pw` is the world transform of the node's parent chain; when a composite's
child computes its own world transform it consults this node, which the
source may answer from (and write to) this node's world cache — the value
passed down is the same, and that benign cache write is the one state effect
not threaded here. -/
def Component.getPlane (pw : Affine) : Component → Except Err (Option PlaneG × Component)
  | .node d cs =>
    match d.payload with
    | .shape _ planar =>
      if planar then
        match d.bodiesD pw with
        | .error e => .error e
        | .ok (bs, d1) => .ok (bs.head?.bind Body.facePlane, .node d1 cs)
      else .ok (none, .node d cs)
    | .union _ =>
      match cs with
      | .nil => .ok (none, .node d cs)
      | .cons ch rest =>
        match Component.getPlane ((d.getWorldD pw).1) ch with
        | .error e => .error e
        | .ok (pl, ch') => .ok (pl, .node d (.cons ch' rest))
    | .difference _ =>
      match cs with
      | .nil => .ok (none, .node d cs)
      | .cons ch rest =>
        match Component.getPlane ((d.getWorldD pw).1) ch with
        | .error e => .error e
        | .ok (pl, ch') => .ok (pl, .node d (.cons ch' rest))
    | .intersection ib cp populated =>
      if populated then .ok (cp, .node d cs)
      else
        match Component.scanPlanes ((d.getWorldD pw).1) cs with
        | .error e => .error e
        | .ok (pl, cs') =>
          .ok (pl, .node { d with payload := .intersection ib pl true } cs')
/-- The `for child in self.children()` loop of `Intersection.get_plane`,
breaking at the first truthy (non-null) plane. -/
def Component.scanPlanes (pw : Affine) : ComponentList → Except Err (Option PlaneG × ComponentList)
  | .nil => .ok (none, .nil)
  | .cons ch rest =>
    match Component.getPlane pw ch with
    | .error e => .error e
    | .ok (some pl, ch') => .ok (some pl, .cons ch' rest)
    | .ok (none, ch') =>
      match Component.scanPlanes pw rest with
      | .error e => .error e
      | .ok (pl, rest') => .ok (pl, .cons ch' rest')
end

/-- `ComponentWithChildren._inverse_transform`: the inverse of this node's
world transform, cached (and populating the world cache on a miss). -/
def NodeData.inverseTransformD (pw : Affine) (d : NodeData) : Affine × NodeData :=
  match d.cachedInverse with
  | some m => (m, d)
  | none =>
    let wd := d.getWorldD pw
    let m := wd.1.invA
    (m, { wd.2 with cachedInverse := some m })

/-! ### Cloning and attaching children -/

/-- `ComponentWithChildren._add_children(children, func=None)` in the special
form `_copy_to` uses: every incoming child is a fresh parentless clone, so
the copy-on-attach branch never fires, and there is no `func`.  `pw` is the
world transform of `self`'s parent chain (the identity: a fresh clone has no
parent). -/
def Component.addChildrenSimple (pw : Affine) : Component → List Component → Component
  | self, [] => Component.resetCache self
  | .node d cs, ch :: rest =>
    let invd := d.inverseTransformD pw
    let ch1 := Component.resetCache (ch.withLocal (invd.1.comp ch.localOf))
    Component.addChildrenSimple pw ((Component.node invd.2 cs).appendChild ch1) rest

mutual
/-- `Component.copy()` on a node whose parent chain reports `pw`: the clone
(same class, local transform set to the source's current world transform,
caches cleared, owned geometry copied, children recursively cloned and
re-attached) together with the source as the call leaves it —
`_get_world_transform()` populates the source's world cache, and
`Difference._copy_to`/`Intersection._copy_to` call `self.bodies()`, which
populates the source's body cache.  Errors when the kernel is asked to copy
a `None` body (empty boolean composite). -/
def Component.copyC (pw : Affine) : Component → Except Err (Component × Component)
  | .node d cs =>
    let w := (d.getWorldD pw).1
    let d1 := (d.getWorldD pw).2
    match d1.payload with
    | .shape b pl =>
      .ok (Component.node ⟨d1.name, w, none, none, none, none, .shape b pl⟩ .nil,
           Component.node d1 cs)
    | .union ub =>
      match ub with
      | none => .error .kernelNullBody
      | some b =>
        match Component.copyList w cs with
        | .error e => .error e
        | .ok (copies, cs1) =>
          let base := Component.node ⟨d1.name, w, none, none, none, none, .union (some b)⟩ .nil
          .ok (Component.addChildrenSimple Affine.idA base copies, Component.node d1 cs1)
    | .difference _ =>
      match NodeData.bodiesD pw d1 with
      | .error e => .error e
      | .ok (bs, d2) =>
        match Component.copyList w cs with
        | .error e => .error e
        | .ok (copies, cs1) =>
          let base := Component.node ⟨d2.name, w, none, none, none, none, .difference (some bs)⟩ .nil
          .ok (Component.addChildrenSimple Affine.idA base copies, Component.node d2 cs1)
    | .intersection _ _ _ =>
      match NodeData.bodiesD pw d1 with
      | .error e => .error e
      | .ok (bs, d2) =>
        match Component.copyList w cs with
        | .error e => .error e
        | .ok (copies, cs1) =>
          let base := Component.node
            ⟨d2.name, w, none, none, none, none, .intersection (some bs) none false⟩ .nil
          .ok (Component.addChildrenSimple Affine.idA base copies, Component.node d2 cs1)
/-- `[child.copy() for child in self._children]`: each child's parent chain
reports `pw` (the world transform of `self`, already cached by the enclosing
`copy`). -/
def Component.copyList (pw : Affine) : ComponentList → Except Err (List Component × ComponentList)
  | .nil => .ok ([], .nil)
  | .cons c cs =>
    match Component.copyC pw c with
    | .error e => .error e
    | .ok (k, c') =>
      match Component.copyList pw cs with
      | .error e => .error e
      | .ok (ks, cs') => .ok (k :: ks, .cons c' cs')
end

/-- An argument to a composite constructor or to `add`: the node together
with what its `_parent` chain reports — `none` when the node has no parent,
`some apw` when it is attached somewhere and its parent chain's world
transform is `apw` (the copy-on-attach branch then fires). -/
structure Incoming where
  tree : Component
  ancW : Option Affine

/-- `ComponentWithChildren._add_children(children, func)`: for each incoming
child — copy-on-attach if it already has a parent, re-expression of its local
transform by `self._inverse_transform()` (`local := inverse ∘ local`), cache
reset, then `func`, then reparenting (append); after the loop,
`self._reset_cache()`.  `s` threads whatever mutable state the operator's
closure captures (`Intersection`'s running `plane`; `Unit` otherwise);
`func` receives and returns `self` (it reads and writes the accumulated
payload) and the child being processed (whose caches it may populate; at
that point the child has no parent yet). -/
def Component.addChildren {σ : Type}
    (f : Option (σ → Component → Component → Except Err (σ × Component × Component)))
    (pw : Affine) : σ → Component → List Incoming → Except Err Component
  | _, self, [] => .ok (Component.resetCache self)
  | s, self, inc :: rest =>
    let child0 : Except Err Component :=
      match inc.ancW with
      | none => .ok inc.tree
      | some apw => (Component.copyC apw inc.tree).map Prod.fst
    match child0 with
    | .error e => .error e
    | .ok ch =>
      let invd := self.dataOf.inverseTransformD pw
      let self1 := Component.node invd.2 self.childrenOf
      let ch1 := Component.resetCache (ch.withLocal (invd.1.comp ch.localOf))
      let step : Except Err (σ × Component × Component) :=
        match f with
        | none => .ok (s, self1, ch1)
        | some g => g s self1 ch1
      match step with
      | .error e => .error e
      | .ok (s2, self2, ch2) =>
        Component.addChildren f pw s2 (self2.appendChild ch2) rest

/-! ### The CSG operators -/

/-- `Union._check_coplanarity(child)`: nothing is checked until a body has
been accumulated; afterwards the representative plane (`self.get_plane()`,
i.e. the first child's plane) and the incoming child's plane must be both
null or both non-null (else "Cannot union a planar entity with a 3d
entity"), and coplanar when both non-null.  The child has not been reparented
yet, so its own world transform is just its local transform (ambient
identity). -/
def Union.checkCoplanarity (pw : Affine) (self child : Component) :
    Except Err (Component × Component) :=
  match self.payloadOf with
  | .union (some _) =>
    match Component.getPlane pw self with
    | .error e => .error e
    | .ok (plane, self1) =>
      match Component.getPlane Affine.idA child with
      | .error e => .error e
      | .ok (childPlane, child1) =>
        match plane, childPlane with
        | none, some _ => .error .unionPlanarWith3d
        | some _, none => .error .unionPlanarWith3d
        | some p, some cp =>
          if p.isCoPlanarTo cp then .ok (self1, child1) else .error .unionNonCoplanar
        | none, none => .ok (self1, child1)
  | _ => .ok (self, child)

/-- The closure `process_child` in `Union.__init__`: check, then for each of
the child's world-space bodies, seed `self._body` when it is still `None`,
else union the body in.  (The seeding branch also assigns `self._plane`,
an attribute never read anywhere; its computation only populates the child's
caches, already populated by the `child.bodies()` call.) -/
def Union.processChildInit (pw : Affine) (s : Unit) (self child : Component) :
    Except Err (Unit × Component × Component) :=
  match Union.checkCoplanarity pw self child with
    | .error e => .error e
    | .ok (self1, child1) =>
      match child1.dataOf.bodiesD Affine.idA with
      | .error e => .error e
      | .ok (bs, cd) =>
        let child2 := Component.node cd child1.childrenOf
        match self1.payloadOf with
        | .union ub =>
          let ub2 := bs.foldl (fun acc b =>
            match acc with
            | none => some b
            | some t => some (Body.boolRes .unionT t b)) ub
          .ok ((), self1.withPayload (.union ub2), child2)
        | _ => .error .kernelNullBody
  -- the final wildcard is unreachable: the method lives on `Union`

/-- The closure `process_child` in `Union.add`: check, then union each of the
child's bodies into `self._body` unconditionally — there is no seeding
branch, so with no accumulated body the kernel receives `None` as the
boolean target and fails (unless the child has no bodies, in which case the
loop body never runs). -/
def Union.processChildAdd (pw : Affine) (s : Unit) (self child : Component) :
    Except Err (Unit × Component × Component) :=
  match Union.checkCoplanarity pw self child with
    | .error e => .error e
    | .ok (self1, child1) =>
      match child1.dataOf.bodiesD Affine.idA with
      | .error e => .error e
      | .ok (bs, cd) =>
        let child2 := Component.node cd child1.childrenOf
        match self1.payloadOf with
        | .union (some t) =>
          .ok ((), self1.withPayload (.union (some (bs.foldl (Body.boolRes .unionT) t))), child2)
        | .union none =>
          match bs with
          | [] => .ok ((), self1, child2)
          | _ => .error .kernelNullBody
        | _ => .error .kernelNullBody

/-- `Union(*components, name)`. -/
def Union.initU (name : Option String) (incs : List Incoming) : Except Err Component :=
  Component.addChildren (some (Union.processChildInit Affine.idA)) Affine.idA ()
    (Component.node ⟨name, Affine.idA, none, none, none, none, .union none⟩ .nil) incs

/-- `Union.add(*components)` on a union whose parent chain reports `pw`. -/
def Union.addU (pw : Affine) (self : Component) (incs : List Incoming) :
    Except Err Component :=
  Component.addChildren (some (Union.processChildAdd pw)) pw () self incs

/-- `Difference._check_coplanarity(child)`: nothing is checked until the
target set is non-empty; afterwards, when the representative plane is null a
non-null child plane raises ("Cannot subtract a planar entity from a 3d
entity"), and when it is non-null a non-null, non-coplanar child plane
raises — a null child plane (a solid child) passes in that branch. -/
def Difference.checkCoplanarity (pw : Affine) (self child : Component) :
    Except Err (Component × Component) :=
  match self.payloadOf with
  | .difference (some bs) =>
    if bs.isEmpty then .ok (self, child)
    else
      match Component.getPlane pw self with
      | .error e => .error e
      | .ok (plane, self1) =>
        match Component.getPlane Affine.idA child with
        | .error e => .error e
        | .ok (childPlane, child1) =>
          match plane, childPlane with
          | none, some _ => .error .subtractPlanarFrom3d
          | none, none => .ok (self1, child1)
          | some p, some cp =>
            if p.isCoPlanarTo cp then .ok (self1, child1) else .error .subtractNonCoplanar
          | some _, none => .ok (self1, child1)
  | _ => .ok (self, child)

/-- The closure `process_child` in `Difference.__init__`: check; the first
child processed seeds the (possibly multi-body) target set with copies of
its world-space bodies; each later child is subtracted from every target
body (when the target set is empty the inner loop never runs and
`child.bodies()` is never evaluated). -/
def Difference.processChildInit (pw : Affine) (s : Unit) (self child : Component) :
    Except Err (Unit × Component × Component) :=
  match Difference.checkCoplanarity pw self child with
    | .error e => .error e
    | .ok (self1, child1) =>
      match self1.payloadOf with
      | .difference none =>
        match child1.dataOf.bodiesD Affine.idA with
        | .error e => .error e
        | .ok (bs, cd) =>
          .ok ((), self1.withPayload (.difference (some bs)), Component.node cd child1.childrenOf)
      | .difference (some []) => .ok ((), self1, child1)
      | .difference (some ts) =>
        match child1.dataOf.bodiesD Affine.idA with
        | .error e => .error e
        | .ok (bs, cd) =>
          let ts2 := ts.map fun t => bs.foldl (Body.boolRes .differenceT) t
          .ok ((), self1.withPayload (.difference (some ts2)), Component.node cd child1.childrenOf)
      | _ => .error .kernelNullBody

/-- The closure `process_child` in `Difference.add`: check, then subtract
each child body from every target body.  Iterating `self._bodies` when it is
still `None` raises a `TypeError`; an empty target list makes the loop a
no-op without evaluating `child.bodies()`. -/
def Difference.processChildAdd (pw : Affine) (s : Unit) (self child : Component) :
    Except Err (Unit × Component × Component) :=
  match Difference.checkCoplanarity pw self child with
    | .error e => .error e
    | .ok (self1, child1) =>
      match self1.payloadOf with
      | .difference none => .error .iterateNone
      | .difference (some []) => .ok ((), self1, child1)
      | .difference (some ts) =>
        match child1.dataOf.bodiesD Affine.idA with
        | .error e => .error e
        | .ok (bs, cd) =>
          let ts2 := ts.map fun t => bs.foldl (Body.boolRes .differenceT) t
          .ok ((), self1.withPayload (.difference (some ts2)), Component.node cd child1.childrenOf)
      | _ => .error .kernelNullBody

/-- `Difference(*components, name)`. -/
def Difference.initD (name : Option String) (incs : List Incoming) : Except Err Component :=
  Component.addChildren (some (Difference.processChildInit Affine.idA)) Affine.idA ()
    (Component.node ⟨name, Affine.idA, none, none, none, none, .difference none⟩ .nil) incs

/-- `Difference.add(*components)` on a node whose parent chain reports `pw`. -/
def Difference.addD (pw : Affine) (self : Component) (incs : List Incoming) :
    Except Err Component :=
  Component.addChildren (some (Difference.processChildAdd pw)) pw () self incs

/-- `Intersection._check_coplanarity(child, plane)`: with a non-empty
accumulated target set, a non-coplanar pair of non-null planes raises
("Cannot intersect planar entities that are non-coplanar"); an established
plane is kept, else the child's plane becomes established, and when neither
exists the source falls through without a `return` — an implicit `None`,
i.e. "no established plane yet".  With no (or an empty) accumulated target
set it returns `child.get_plane()`.  The child has not been reparented yet
(ambient identity). -/
def Intersection.checkCoplanarity (self child : Component) (plane : Option PlaneG) :
    Except Err (Option PlaneG × Component) :=
  match self.payloadOf with
  | .intersection (some bs) _ _ =>
    if bs.isEmpty then Component.getPlane Affine.idA child
    else
      match Component.getPlane Affine.idA child with
      | .error e => .error e
      | .ok (childPlane, child1) =>
        match plane with
        | some p =>
          match childPlane with
          | some cp =>
            if p.isCoPlanarTo cp then .ok (some p, child1) else .error .intersectNonCoplanar
          | none => .ok (some p, child1)
        | none =>
          match childPlane with
          | some cp => .ok (some cp, child1)
          | none => .ok (none, child1)
  | .intersection none _ _ => Component.getPlane Affine.idA child
  | _ => .error .kernelNullBody

/-- The closure `process_child` in `Intersection.__init__`, threading the
captured `plane` variable: check (updating `plane`); the first child seeds
the target set with copies of its world-space bodies; later children are
intersected into every target body. -/
def Intersection.processChildInit (plane : Option PlaneG) (self child : Component) :
    Except Err (Option PlaneG × Component × Component) :=
  match Intersection.checkCoplanarity self child plane with
    | .error e => .error e
    | .ok (plane2, child1) =>
      match self.payloadOf with
      | .intersection none cp pop =>
        match child1.dataOf.bodiesD Affine.idA with
        | .error e => .error e
        | .ok (bs, cd) =>
          .ok (plane2, self.withPayload (.intersection (some bs) cp pop),
               Component.node cd child1.childrenOf)
      | .intersection (some []) _ _ => .ok (plane2, self, child1)
      | .intersection (some ts) cp pop =>
        match child1.dataOf.bodiesD Affine.idA with
        | .error e => .error e
        | .ok (bs, cd) =>
          let ts2 := ts.map fun t => bs.foldl (Body.boolRes .intersectionT) t
          .ok (plane2, self.withPayload (.intersection (some ts2) cp pop),
               Component.node cd child1.childrenOf)
      | _ => .error .kernelNullBody

/-- The closure `process_child` in `Intersection.add`: like the constructor's
but with no seeding branch — iterating a `None` target set raises a
`TypeError`. -/
def Intersection.processChildAdd (plane : Option PlaneG) (self child : Component) :
    Except Err (Option PlaneG × Component × Component) :=
  match Intersection.checkCoplanarity self child plane with
    | .error e => .error e
    | .ok (plane2, child1) =>
      match self.payloadOf with
      | .intersection none _ _ => .error .iterateNone
      | .intersection (some []) _ _ => .ok (plane2, self, child1)
      | .intersection (some ts) cp pop =>
        match child1.dataOf.bodiesD Affine.idA with
        | .error e => .error e
        | .ok (bs, cd) =>
          let ts2 := ts.map fun t => bs.foldl (Body.boolRes .intersectionT) t
          .ok (plane2, self.withPayload (.intersection (some ts2) cp pop),
               Component.node cd child1.childrenOf)
      | _ => .error .kernelNullBody

/-- `Intersection(*components, name)`: the captured `plane` starts `None`. -/
def Intersection.initI (name : Option String) (incs : List Incoming) : Except Err Component :=
  Component.addChildren (some Intersection.processChildInit) Affine.idA none
    (Component.node ⟨name, Affine.idA, none, none, none, none, .intersection none none false⟩ .nil)
    incs

/-- `Intersection.add(*components)`: the captured `plane` starts from
`self.get_plane()` (a stateful call populating the plane cache). -/
def Intersection.addI (pw : Affine) (self : Component) (incs : List Incoming) :
    Except Err Component :=
  match Component.getPlane pw self with
  | .error e => .error e
  | .ok (plane, self1) =>
    Component.addChildren (some Intersection.processChildAdd) pw plane self1 incs

/-- The three boolean operators, for statements over all of them. -/
inductive CsgOp where
  | unionOp
  | differenceOp
  | intersectionOp

def CsgOp.initC : CsgOp → Option String → List Incoming → Except Err Component
  | .unionOp => Union.initU
  | .differenceOp => Difference.initD
  | .intersectionOp => Intersection.initI

def CsgOp.addC : CsgOp → Affine → Component → List Incoming → Except Err Component
  | .unionOp => Union.addU
  | .differenceOp => Difference.addD
  | .intersectionOp => Intersection.addI

/-- The payload kind an operator's `self` carries (`Payload.kindTag` value). -/
def CsgOp.tagC : CsgOp → Nat
  | .unionOp => 1
  | .differenceOp => 2
  | .intersectionOp => 3

/-! ### Leaf shape constructors and the placement helpers -/

/-- `Box(x, y, z, name)`: a solid leaf owning the kernel box primitive. -/
def mkBox (x y z : ℚ) (name : Option String) : Component :=
  Component.node ⟨name, Affine.idA, none, none, none, none, .shape (Body.boxPrim x y z) false⟩ .nil

/-- `Rect(x, y, name)`: a planar leaf owning the face body cut from a thin
box; its supporting plane is the plane z = 0. -/
def mkRect (x y : ℚ) (name : Option String) : Component :=
  Component.node ⟨name, Affine.idA, none, none, none, none, .shape (Body.rectFace x y) true⟩ .nil

/-- `Translation`: wraps a kernel vector; the arithmetic dunder methods
mutate the wrapped vector in place via `setWithArray`.  `__add__` ends with
`return self`; `__sub__` and `__mul__` have no return statement, so the
expression evaluates to `None`.  Each operation is modelled as the pair
(vector after the mutation, Python return value). -/
structure TranslationW where
  vector : Vec3
deriving DecidableEq

/-- `Translation.__add__(other)`. -/
def TranslationW.addQ (t : TranslationW) (o : ℚ) : TranslationW × Option TranslationW :=
  let t2 : TranslationW := ⟨⟨t.vector.x + o, t.vector.y + o, t.vector.z + o⟩⟩
  (t2, some t2)

/-- `Translation.__sub__(other)`. -/
def TranslationW.subQ (t : TranslationW) (o : ℚ) : TranslationW × Option TranslationW :=
  let t2 : TranslationW := ⟨⟨t.vector.x - o, t.vector.y - o, t.vector.z - o⟩⟩
  (t2, none)

/-- `Translation.__mul__(other)`. -/
def TranslationW.mulQ (t : TranslationW) (o : ℚ) : TranslationW × Option TranslationW :=
  let t2 : TranslationW := ⟨⟨t.vector.x * o, t.vector.y * o, t.vector.z * o⟩⟩
  (t2, none)

/-- `Place.__eq__` with a point operand: the `Translation` carrying
`self._point.vectorTo(point)` (an alignment between two `Place` operands
passes the other marker's point). -/
def placeAlign (p other : Vec3) : TranslationW := ⟨Vec3.sub other p⟩

/-! ### Auxiliary predicates and spec-side descriptions -/

/-- The node's data with every cache field cleared: two nodes are "equal up
to caches" when their stripped forms are equal. -/
def NodeData.stripCaches (d : NodeData) : NodeData :=
  { d with cachedBodies := none, cachedBBox := none, cachedWorld := none,
           cachedInverse := none,
           payload := match d.payload with
             | .intersection ib _ _ => Payload.intersection ib none false
             | q => q }

/-- The node's own world cache, when populated, holds exactly
`parentWorld ∘ local`. -/
def NodeData.worldCacheOK (pw : Affine) (d : NodeData) : Bool :=
  match d.cachedWorld with
  | none => true
  | some w => decide (w = pw.comp d.localTransform)

/-- As `worldCacheOK`, and the cached inverse transform, when populated,
holds the inverse of the world transform. -/
def NodeData.inverseCacheOK (pw : Affine) (d : NodeData) : Bool :=
  d.worldCacheOK pw &&
    match d.cachedInverse with
    | none => true
    | some m => decide (m = (pw.comp d.localTransform).invA)

def ComponentList.lastC : ComponentList → Option Component
  | .nil => none
  | .cons c .nil => some c
  | .cons _ (.cons c cs) => ComponentList.lastC (.cons c cs)

def ComponentList.appendAll : ComponentList → List Component → ComponentList
  | cs, [] => cs
  | cs, k :: ks => (cs.append k).appendAll ks

/-- `pathUnder q p` — the node at `q` lies in the subtree rooted at the node
at `p` (i.e. `p` is a leading segment of `q`). -/
def pathUnder : List Nat → List Nat → Bool
  | _, [] => true
  | [], _ :: _ => false
  | i :: q, j :: p => decide (i = j) && pathUnder q p

mutual
/-- Every node's world transform along the tree (under ambient `pw`) has an
invertible linear part — the regime in which re-expressing children through
inverse world transforms is lossless. -/
def Component.worldsInvertible (pw : Affine) : Component → Bool
  | .node d cs =>
    decide ((pw.comp d.localTransform).det ≠ 0) && cs.worldsInvertibleL (pw.comp d.localTransform)
def ComponentList.worldsInvertibleL (pw : Affine) : ComponentList → Bool
  | .nil => true
  | .cons c cs => c.worldsInvertible pw && cs.worldsInvertibleL pw
end

mutual
/-- Structural well-formedness matching the Python classes: leaf shapes own
no children. -/
def Component.wellFormed : Component → Bool
  | .node d cs =>
    (match d.payload with
     | .shape _ _ => decide (cs = ComponentList.nil)
     | _ => true) && cs.wellFormedL
def ComponentList.wellFormedL : ComponentList → Bool
  | .nil => true
  | .cons c cs => c.wellFormed && cs.wellFormedL
end

/-- The concrete class of a node, for "copy returns the same variant". -/
def Payload.kindTag : Payload → Nat
  | .shape _ _ => 0
  | .union _ => 1
  | .difference _ => 2
  | .intersection _ _ _ => 3

/-- Spec-side description for the representative plane of an `Intersection`
(the claim's words): the first non-null `get_plane()` value among the
children in insertion order, or null when no child has one. -/
def firstPlaneOfList (pw : Affine) : ComponentList → Except Err (Option PlaneG)
  | .nil => .ok none
  | .cons c cs =>
    match Component.getPlane pw c with
    | .error e => .error e
    | .ok (some p, _) => .ok (some p)
    | .ok (none, _) => firstPlaneOfList pw cs

/-! ### Concrete instances used to exercise the theorems -/

def boxW : Component := mkBox 1 1 1 none

def rectW : Component := mkRect 1 1 none

/-- `Union()` — a union constructed with no children. -/
def emptyUnionW : Component := (Union.initU none []).toOption.getD boxW

/-- `Union(Box(1,1,1))` — a union with one accumulated body. -/
def unionBoxW : Component := (Union.initU none [⟨boxW, none⟩]).toOption.getD boxW

/-- `Difference(Rect(1,1))` — a planar-seeded difference. -/
def diffRectW : Component := (Difference.initD none [⟨rectW, none⟩]).toOption.getD boxW

/-- The planar-seeded difference's own representative plane query. -/
def diffRectPlaneW : Option PlaneG × Component :=
  (Component.getPlane Affine.idA diffRectW).toOption.getD (none, diffRectW)

/-- The box child's plane query (ambient identity: not yet reparented). -/
def boxPlaneW : Option PlaneG × Component :=
  (Component.getPlane Affine.idA boxW).toOption.getD (none, boxW)

/-- The plane query against `unionBoxW`. -/
def unionBoxPlaneW : Option PlaneG × Component :=
  (Component.getPlane Affine.idA unionBoxW).toOption.getD (none, unionBoxW)

/-- A successful uniform scale of the unit box. -/
def scaledBoxW : Component :=
  (Component.scale 2 (-2) 2 none boxW).toOption.getD boxW

/-- `unionBoxW` after `translate(1, 2, 3)` on the root. -/
def c1TreeW : Component :=
  (Component.applyAll [([], Mutation.translate 1 2 3)] unionBoxW).getD unionBoxW

/-- The world transform reported for the child `[0]` of `c1TreeW`. -/
def c1ChildQW : Affine × Component :=
  (Component.getWorldTransformAt c1TreeW [0]).getD (Affine.idA, c1TreeW)

/-- The world transform reported for the root of `c1TreeW`. -/
def c1RootQW : Affine × Component :=
  (Component.getWorldTransformAt c1TreeW []).getD (Affine.idA, c1TreeW)

/-- `unionBoxW.add(box-with-a-parent)`: the copy-on-attach path. -/
def c2AddW : Component :=
  (Union.addU Affine.idA unionBoxW [⟨boxW, some Affine.idA⟩]).toOption.getD boxW

/-- `unionBoxW.copy()`. -/
def c9CopyW : Component × Component :=
  (Component.copyC Affine.idA unionBoxW).toOption.getD (boxW, boxW)

/-- `Intersection(Box(1,1,1), Box(2,2,2))`. -/
def interBoxW : Component :=
  (Intersection.initI none [⟨boxW, none⟩, ⟨mkBox 2 2 2 none, none⟩]).toOption.getD boxW

/-- The world-space bodies of the unit box (ambient identity). -/
def boxBodiesW : List Body × NodeData :=
  (NodeData.bodiesD Affine.idA boxW.dataOf).toOption.getD ([], boxW.dataOf)

/-- The unit Rect's plane query (ambient identity). -/
def rectPlaneW : Option PlaneG × Component :=
  (Component.getPlane Affine.idA rectW).toOption.getD (none, rectW)

/-- `unionBoxW` after `translate(1, 0, 0)` invoked on its child `[0]`. -/
def c3TreeW : Component :=
  (Component.applyMutationAt unionBoxW ([0], Mutation.translate 1 0 0)).getD unionBoxW

/-- The mutated child node of `c3TreeW`. -/
def c3NodeW : Component := (c3TreeW.subtreeAt [0]).getD boxW

/-- `Box(1,1,1).copy()` with no parent (ambient identity): clone and the
source as the call leaves it. -/
def c9BoxCopyW : Component × Component :=
  (Component.copyC Affine.idA boxW).toOption.getD (boxW, boxW)

deriving instance DecidableEq for Except

/-! ### Theorems -/

section MainTheorems

attribute [local semireducible] Rat.mul Rat.add Rat.sub Rat.inv
theorem Mat3.mul_idM (a : Mat3) : a.mul Mat3.idM = a := by
  cases a; simp [Mat3.mul, Mat3.idM]

theorem Mat3.idM_mul (a : Mat3) : Mat3.idM.mul a = a := by
  cases a; simp [Mat3.mul, Mat3.idM]

theorem Mat3.mul_assoc (a b c : Mat3) : (a.mul b).mul c = a.mul (b.mul c) := by
  cases a; cases b; cases c
  simp only [Mat3.mul, Mat3.mk.injEq]
  refine ⟨?_, ?_, ?_, ?_, ?_, ?_, ?_, ?_, ?_⟩ <;> ring

theorem Mat3.mul_invM (a : Mat3) (h : a.det ≠ 0) : a.mul a.invM = Mat3.idM := by
  cases a
  simp only [Mat3.det] at h
  simp only [Mat3.mul, Mat3.invM, Mat3.det, Mat3.idM, Mat3.mk.injEq]
  refine ⟨?_, ?_, ?_, ?_, ?_, ?_, ?_, ?_, ?_⟩ <;> field_simp <;> ring

theorem Mat3.invM_mul (a : Mat3) (h : a.det ≠ 0) : a.invM.mul a = Mat3.idM := by
  cases a
  simp only [Mat3.det] at h
  simp only [Mat3.mul, Mat3.invM, Mat3.det, Mat3.idM, Mat3.mk.injEq]
  refine ⟨?_, ?_, ?_, ?_, ?_, ?_, ?_, ?_, ?_⟩ <;> field_simp <;> ring

theorem Affine.comp_idA (a : Affine) : a.comp Affine.idA = a := by
  cases a with
  | mk l t =>
    cases t
    simp [Affine.comp, Affine.idA, Mat3.mul_idM, Mat3.mulVec, Vec3.zero, Vec3.add]

theorem Affine.idA_comp (a : Affine) : Affine.idA.comp a = a := by
  cases a with
  | mk l t =>
    simp only [Affine.comp, Affine.idA, Mat3.idM_mul, Affine.mk.injEq, true_and]
    cases t
    simp [Mat3.mulVec, Mat3.idM, Vec3.add, Vec3.zero]

theorem Affine.comp_assoc (a b c : Affine) :
    (a.comp b).comp c = a.comp (b.comp c) := by
  cases a; cases b; cases c
  simp only [Affine.comp, Affine.mk.injEq]
  constructor
  · exact Mat3.mul_assoc _ _ _
  · rename_i la ta lb tb lc tc
    cases la; cases lb; cases ta; cases tb; cases tc
    simp only [Mat3.mul, Mat3.mulVec, Vec3.add, Vec3.mk.injEq]
    refine ⟨?_, ?_, ?_⟩ <;> ring

theorem Affine.comp_invA (a : Affine) (h : a.det ≠ 0) :
    a.comp a.invA = Affine.idA := by
  cases a with
  | mk l t =>
    simp only [Affine.det] at h
    simp only [Affine.comp, Affine.invA, Affine.idA, Affine.mk.injEq]
    constructor
    · exact Mat3.mul_invM l h
    · have hinv := Mat3.mul_invM l h
      cases l; cases t
      simp only [Mat3.det] at h
      simp only [Mat3.mulVec, Mat3.invM, Mat3.det, Vec3.neg, Vec3.add, Vec3.zero, Vec3.mk.injEq]
      refine ⟨?_, ?_, ?_⟩ <;> field_simp <;> ring

theorem Affine.invA_comp (a : Affine) (h : a.det ≠ 0) :
    a.invA.comp a = Affine.idA := by
  cases a with
  | mk l t =>
    simp only [Affine.det] at h
    simp only [Affine.comp, Affine.invA, Affine.idA, Affine.mk.injEq]
    constructor
    · exact Mat3.invM_mul l h
    · cases l; cases t
      simp only [Mat3.det] at h
      simp only [Mat3.mulVec, Mat3.invM, Mat3.det, Vec3.neg, Vec3.add, Vec3.zero, Vec3.mk.injEq]
      refine ⟨?_, ?_, ?_⟩ <;> field_simp <;> ring

/-- C10: for a Translation value t and a number s, `t + s` adds s to each of
t's x, y and z components in place and returns t itself (the mutated value),
while `t - s` and `t * s` mutate the underlying vector the same way but
evaluate to None, returning no Translation value. -/
theorem translation_dunder_returns (t : TranslationW) (s : ℚ) :
    (TranslationW.addQ t s).2 = some (TranslationW.addQ t s).1 ∧
    (TranslationW.addQ t s).1.vector
      = ⟨t.vector.x + s, t.vector.y + s, t.vector.z + s⟩ ∧
    (TranslationW.subQ t s).1.vector
      = ⟨t.vector.x - s, t.vector.y - s, t.vector.z - s⟩ ∧
    (TranslationW.subQ t s).2 = none ∧
    (TranslationW.mulQ t s).1.vector
      = ⟨t.vector.x * s, t.vector.y * s, t.vector.z * s⟩ ∧
    (TranslationW.mulQ t s).2 = none :=
  ⟨rfl, rfl, rfl, rfl, rfl, rfl⟩

theorem Affine.invA_translationM (v : Vec3) :
    (Affine.translationM v).invA = Affine.translationM v.neg := by
  cases v
  simp only [Affine.invA, Affine.translationM, Mat3.invM, Mat3.idM, Mat3.det, Mat3.mulVec,
    Vec3.neg, Affine.mk.injEq, Mat3.mk.injEq, Vec3.mk.injEq]
  norm_num

/-- C7: `scale(sx, sy, sz, center)` raises (UnsupportedTransform, realized
as a ValueError) exactly when |sx|, |sy| and |sz| are not all equal — and
since the check precedes every mutation, the erroring call leaves the local
transform and the caches untouched; a legal call composes translate(-center),
then the diagonal scale, then translate(+center) into the local transform
and clears the caches (of the node and its descendants). -/
theorem scale_uniformity (sx sy sz : ℚ) (center : Option Vec3) (c : Component) :
    ((Component.scale sx sy sz center c).isOk = false ↔ ¬(|sx| = |sy| ∧ |sy| = |sz|)) ∧
    ((Component.scale sx sy sz center c).isOk = false →
      Component.scale sx sy sz center c = .error .nonUniformScale) ∧
    (∀ c', Component.scale sx sy sz center c = .ok c' →
      c' = Component.resetCache (c.withLocal
        ((Affine.translationM (center.getD Vec3.zero)).comp
          ((Affine.scaleM sx sy sz).comp
            ((Affine.translationM ((center.getD Vec3.zero).neg)).comp c.localOf))))) := by
  unfold Component.scale
  by_cases h : |sx| ≠ |sy| ∨ |sy| ≠ |sz|
  · simp only [if_pos h, Except.isOk, Except.toBool]
    refine ⟨?_, ?_, ?_⟩
    · constructor
      · intro _
        rcases h with h | h
        · exact fun hc => h hc.1
        · exact fun hc => h hc.2
      · intro _; exact trivial
    · intro _; exact trivial
    · intro c' hc'; cases hc'
  · simp only [if_neg h, Except.isOk, Except.toBool]
    push_neg at h
    refine ⟨?_, ?_, ?_⟩
    · constructor
      · intro hfalse; cases hfalse
      · intro hc; exact absurd ⟨h.1, h.2⟩ hc
    · intro hfalse; cases hfalse
    · intro c' hc'
      rw [Affine.invA_translationM] at hc'
      have hnn : ((center.getD Vec3.zero).neg).neg = center.getD Vec3.zero := by
        cases center.getD Vec3.zero; simp [Vec3.neg]
      rw [Affine.invA_translationM, hnn] at hc'
      injection hc' with hc'
      exact hc'.symm

/-- C7 witness: a uniform `scale(2, -2, 2)` (equal absolute factors) on the
unit box succeeds and produces exactly the composed transform with cleared
caches, while `scale(2, 3, 1)` raises. -/
theorem scale_uniformity_witness :
    Component.scale 2 (-2) 2 none boxW = .ok scaledBoxW ∧
    scaledBoxW = Component.resetCache (boxW.withLocal
      ((Affine.translationM Vec3.zero).comp
        ((Affine.scaleM 2 (-2) 2).comp
          ((Affine.translationM Vec3.zero.neg).comp boxW.localOf)))) ∧
    (Component.scale 2 3 1 none boxW).isOk = false :=
  ⟨by decide, (scale_uniformity 2 (-2) 2 none boxW).2.2 scaledBoxW (by decide),
   (scale_uniformity 2 3 1 none boxW).1.mpr (by decide)⟩

theorem foldl_union_gen (f : Option Body → Body → Option Body)
    (hf : ∀ t x, f (some t) x = some (Body.boolRes BoolType.unionT t x)) :
    ∀ (bs : List Body) (t : Body),
      bs.foldl f (some t) = some (bs.foldl (Body.boolRes BoolType.unionT) t) := by
  intro bs
  induction bs with
  | nil => intro t; rfl
  | cons x xs ih => intro t; rw [List.foldl_cons, hf, List.foldl_cons]; exact ih _

/-- C4 counterexample: a Union constructed with no children does not get its
body seeded when the first child arrives via `add` — `Union.add` has no
seeding branch, so the kernel is handed `None` as the boolean target and the
call fails instead. -/
theorem union_add_does_not_seed :
    Union.initU none [] = .ok emptyUnionW ∧
    emptyUnionW.payloadOf = Payload.union none ∧
    Union.addU Affine.idA emptyUnionW [⟨boxW, none⟩] = .error Err.kernelNullBody := by
  refine ⟨by decide, by decide, by decide⟩

/-- C4 amended: during construction the first child processed while no body
has been accumulated seeds the result (its first world-space body becomes the
accumulated body, its remaining bodies are unioned in), and every child
processed with a body already accumulated has all its bodies unioned in;
`Union.add`, however, has no seeding branch: with an accumulated body it
unions every added body in, and on a Union constructed with no children it
fails with a kernel error (None boolean target) rather than seeding. -/
theorem union_seeding_fold (pw : Affine) (self child self1 child1 : Component)
    (cd : NodeData) :
    (self.payloadOf = Payload.union none →
      child.dataOf.bodiesD Affine.idA = .ok ([], cd) →
      Union.processChildInit pw () self child
        = .ok ((), self.withPayload (.union none), Component.node cd child.childrenOf)) ∧
    (∀ b bs, self.payloadOf = Payload.union none →
      child.dataOf.bodiesD Affine.idA = .ok (b :: bs, cd) →
      Union.processChildInit pw () self child
        = .ok ((), self.withPayload (.union (some (bs.foldl (Body.boolRes .unionT) b))),
               Component.node cd child.childrenOf)) ∧
    (∀ t bs, Union.checkCoplanarity pw self child = .ok (self1, child1) →
      self1.payloadOf = Payload.union (some t) →
      child1.dataOf.bodiesD Affine.idA = .ok (bs, cd) →
      Union.processChildInit pw () self child
        = .ok ((), self1.withPayload (.union (some (bs.foldl (Body.boolRes .unionT) t))),
               Component.node cd child1.childrenOf)) ∧
    (∀ t bs, Union.checkCoplanarity pw self child = .ok (self1, child1) →
      self1.payloadOf = Payload.union (some t) →
      child1.dataOf.bodiesD Affine.idA = .ok (bs, cd) →
      Union.processChildAdd pw () self child
        = .ok ((), self1.withPayload (.union (some (bs.foldl (Body.boolRes .unionT) t))),
               Component.node cd child1.childrenOf)) ∧
    (∀ b bs, Union.checkCoplanarity pw self child = .ok (self1, child1) →
      self1.payloadOf = Payload.union none →
      child1.dataOf.bodiesD Affine.idA = .ok (b :: bs, cd) →
      Union.processChildAdd pw () self child = .error Err.kernelNullBody) := by
  have hchk : self.payloadOf = Payload.union none →
      Union.checkCoplanarity pw self child = .ok (self, child) := by
    intro hp; unfold Union.checkCoplanarity; rw [hp]
  refine ⟨?_, ?_, ?_, ?_, ?_⟩
  · intro hp hb
    simp only [Union.processChildInit, hchk hp, hb, hp, List.foldl_nil]
  · intro b bs hp hb
    simp only [Union.processChildInit, hchk hp, hb, hp, List.foldl_cons]
    rw [foldl_union_gen _ (fun t x => rfl)]
  · intro t bs hc hp hb
    simp only [Union.processChildInit, hc, hb, hp]
    rw [foldl_union_gen _ (fun t x => rfl)]
  · intro t bs hc hp hb
    simp only [Union.processChildAdd, hc, hb, hp]
  · intro b bs hc hp hb
    simp only [Union.processChildAdd, hc, hb, hp]

/-- C4 amended-claim witness: the box supplies one world-space body; a
construction-time process of that child on the empty union seeds the
accumulated body with it. -/
theorem union_seeding_fold_witness :
    emptyUnionW.payloadOf = Payload.union none ∧
    boxW.dataOf.bodiesD Affine.idA
      = .ok ([Body.transformed Affine.idA (Body.boxPrim 1 1 1)], boxBodiesW.2) ∧
    Union.processChildInit Affine.idA () emptyUnionW boxW
      = .ok ((), emptyUnionW.withPayload
               (.union (some (Body.transformed Affine.idA (Body.boxPrim 1 1 1)))),
             Component.node boxBodiesW.2 boxW.childrenOf) := by
  refine ⟨by decide, by decide, ?_⟩
  exact (union_seeding_fold Affine.idA emptyUnionW boxW emptyUnionW boxW boxBodiesW.2).2.1
    (Body.transformed Affine.idA (Body.boxPrim 1 1 1)) [] (by decide) (by decide)

/-- C5 counterexample: a Difference seeded with a planar Rect accepts a solid
Box child — `Difference.add` raises nothing in that direction, where the
claim requires an IncompatibleDimensionality error both ways. -/
theorem difference_solid_from_planar_passes :
    Difference.initD none [⟨rectW, none⟩] = .ok diffRectW ∧
    (Component.getPlane Affine.idA diffRectW).map Prod.fst = .ok (some ⟨Vec3.zero, ⟨0, 0, 1⟩⟩) ∧
    boxW.payloadOf = Payload.shape (Body.boxPrim 1 1 1) false ∧
    (Difference.addD Affine.idA diffRectW [⟨boxW, none⟩]).isOk = true := by
  refine ⟨by decide, by decide, by decide, by decide⟩

/-- C5 amended: with a non-empty accumulated target set, the check raises
"cannot subtract a planar entity from a 3d entity" exactly when the target
has no representative plane and the child has one; it raises the
non-coplanarity error exactly when both planes exist and are non-coplanar;
a solid child subtracted from a planar target raises nothing (the rule is
one-directional, unlike Union's); and with an absent or empty target set no
check is performed at all. -/
theorem difference_coplanarity_rule (pw : Affine) (self child self1 child1 : Component)
    (ts : List Body) (p cp : Option PlaneG)
    (hpay : self.payloadOf = Payload.difference (some ts)) (hne : ts ≠ [])
    (hp : Component.getPlane pw self = .ok (p, self1))
    (hcp : Component.getPlane Affine.idA child = .ok (cp, child1)) :
    (Difference.checkCoplanarity pw self child = .error Err.subtractPlanarFrom3d
      ↔ p = none ∧ cp ≠ none) ∧
    (Difference.checkCoplanarity pw self child = .error Err.subtractNonCoplanar
      ↔ ∃ pp cpp, p = some pp ∧ cp = some cpp ∧ pp.isCoPlanarTo cpp = false) ∧
    (p ≠ none → cp = none → Difference.checkCoplanarity pw self child = .ok (self1, child1)) ∧
    (∀ s2 c2 : Component,
      (s2.payloadOf = Payload.difference none ∨ s2.payloadOf = Payload.difference (some [])) →
      Difference.checkCoplanarity pw s2 c2 = .ok (s2, c2)) := by
  have hts : ts.isEmpty = false := by
    cases ts with
    | nil => exact absurd rfl hne
    | cons a as => rfl
  refine ⟨?_, ?_, ?_, ?_⟩
  · cases p <;> cases cp <;>
      simp only [Difference.checkCoplanarity, hpay, hts, Bool.false_eq_true, if_false, hp, hcp]
    · simp
    · simp
    · simp
    · rename_i pp cpp
      by_cases hco : pp.isCoPlanarTo cpp <;> simp [hco]
  · cases p <;> cases cp <;>
      simp only [Difference.checkCoplanarity, hpay, hts, Bool.false_eq_true, if_false, hp, hcp]
    · simp
    · simp
    · simp
    · rename_i pp cpp
      by_cases hco : pp.isCoPlanarTo cpp <;> simp [hco]
  · intro hpn hcn
    subst hcn
    cases p with
    | none => exact absurd rfl hpn
    | some pp =>
      simp only [Difference.checkCoplanarity, hpay, hts, Bool.false_eq_true, if_false, hp, hcp]
  · intro s2 c2 hs2
    cases hs2 with
    | inl hn => simp only [Difference.checkCoplanarity, hn]
    | inr he => simp only [Difference.checkCoplanarity, he, List.isEmpty_nil, if_true]

/-- C5 amended-claim witness: on the Rect-seeded difference (planar target)
the solid Box child passes the check, and an empty target set performs no
check. -/
theorem difference_coplanarity_rule_witness :
    diffRectW.payloadOf
      = Payload.difference (some [Body.transformed Affine.idA (Body.rectFace 1 1)]) ∧
    Component.getPlane Affine.idA diffRectW = .ok (diffRectPlaneW.1, diffRectPlaneW.2) ∧
    diffRectPlaneW.1 = some ⟨Vec3.zero, ⟨0, 0, 1⟩⟩ ∧
    Component.getPlane Affine.idA boxW = .ok (none, boxW) ∧
    Difference.checkCoplanarity Affine.idA diffRectW boxW
      = .ok (diffRectPlaneW.2, boxW) := by
  refine ⟨by decide, by decide, by decide, by decide, ?_⟩
  exact (difference_coplanarity_rule Affine.idA diffRectW boxW diffRectPlaneW.2 boxW
    [Body.transformed Affine.idA (Body.rectFace 1 1)] diffRectPlaneW.1 none
    (by decide) (by decide) (by decide) (by decide)).2.2.1 (by decide) rfl

/-- C8: for a Union with an accumulated body, the check raises the
mixed-dimensionality error exactly when exactly one of the representative
plane (`self.get_plane()`, the first child's plane — null iff the
accumulated result is solid) and the incoming child's plane is null; it
raises the non-coplanarity error exactly when both planes exist and the
kernel reports them non-coplanar; it passes otherwise; and in particular
`Union(Rect(1,1), Box(1,1,1))` raises the mixed-dimensionality error. -/
theorem union_dimensionality_rule (pw : Affine) (self child self1 child1 : Component)
    (b : Body) (p cp : Option PlaneG)
    (hpay : self.payloadOf = Payload.union (some b))
    (hp : Component.getPlane pw self = .ok (p, self1))
    (hcp : Component.getPlane Affine.idA child = .ok (cp, child1)) :
    (Union.checkCoplanarity pw self child = .error Err.unionPlanarWith3d
      ↔ Bool.xor cp.isNone p.isNone = true) ∧
    (Union.checkCoplanarity pw self child = .error Err.unionNonCoplanar
      ↔ ∃ pp cpp, p = some pp ∧ cp = some cpp ∧ pp.isCoPlanarTo cpp = false) ∧
    (Union.checkCoplanarity pw self child = .ok (self1, child1)
      ↔ ((p = none ∧ cp = none)
         ∨ ∃ pp cpp, p = some pp ∧ cp = some cpp ∧ pp.isCoPlanarTo cpp = true)) ∧
    Union.initU none [⟨mkRect 1 1 none, none⟩, ⟨mkBox 1 1 1 none, none⟩]
      = .error Err.unionPlanarWith3d := by
  refine ⟨?_, ?_, ?_, by decide⟩
  · cases p <;> cases cp <;>
      simp only [Union.checkCoplanarity, hpay, hp, hcp]
    · simp [Option.isNone]
    · simp [Option.isNone]
    · simp [Option.isNone]
    · rename_i pp cpp
      by_cases hco : pp.isCoPlanarTo cpp <;> simp [hco, Option.isNone]
  · cases p <;> cases cp <;>
      simp only [Union.checkCoplanarity, hpay, hp, hcp]
    · simp
    · simp
    · simp
    · rename_i pp cpp
      by_cases hco : pp.isCoPlanarTo cpp <;> simp [hco]
  · cases p <;> cases cp <;>
      simp only [Union.checkCoplanarity, hpay, hp, hcp]
    · simp
    · simp
    · simp
    · rename_i pp cpp
      by_cases hco : pp.isCoPlanarTo cpp <;> simp [hco]

/-- C8 witness: the solid-seeded `unionBoxW` (representative plane null)
rejects the planar Rect child with the mixed-dimensionality error. -/
theorem union_dimensionality_rule_witness :
    unionBoxW.payloadOf
      = Payload.union (some (Body.transformed Affine.idA (Body.boxPrim 1 1 1))) ∧
    Component.getPlane Affine.idA unionBoxW = .ok (none, unionBoxW) ∧
    Component.getPlane Affine.idA rectW = .ok (rectPlaneW.1, rectPlaneW.2) ∧
    rectPlaneW.1 = some ⟨Vec3.zero, ⟨0, 0, 1⟩⟩ ∧
    Union.checkCoplanarity Affine.idA unionBoxW rectW = .error Err.unionPlanarWith3d := by
  refine ⟨by decide, by decide, by decide, by decide, ?_⟩
  exact (union_dimensionality_rule Affine.idA unionBoxW rectW unionBoxW rectPlaneW.2
    (Body.transformed Affine.idA (Body.boxPrim 1 1 1)) none rectPlaneW.1
    (by decide) (by decide) (by decide)).1.mpr (by decide)

theorem scanPlanes_firstPlane (pw : Affine) :
    ∀ cs : ComponentList,
      (Component.scanPlanes pw cs).map Prod.fst = firstPlaneOfList pw cs
  | .nil => rfl
  | .cons c cs => by
    unfold Component.scanPlanes firstPlaneOfList
    cases h : Component.getPlane pw c with
    | error e => simp [h, Except.map]
    | ok pr =>
      cases pr with
      | mk pl ch' =>
        cases pl with
        | some q => simp [h, Except.map]
        | none =>
          simp only [h]
          cases h2 : Component.scanPlanes pw cs with
          | error e => simp [h2, Except.map, ← scanPlanes_firstPlane pw cs]
          | ok pr2 => simp [h2, Except.map, ← scanPlanes_firstPlane pw cs]

/-- C6: `Intersection.get_plane()` (with its plane cache not yet populated)
reports the first non-null plane among the children in insertion order, or
null when no child has one; and the coplanarity-check helper, given no
established plane and a child whose own plane is null, returns "no
established plane yet" (a null plane) and raises no error — both when bodies
have been accumulated (the implicit fall-through `return None`) and when the
target set is absent or empty (the `else` branch returning the child's null
plane). -/
theorem intersection_plane_rule (pw : Affine) (nm : Option String) (lt : Affine)
    (cb : Option (List Body)) (cbb : Option (Vec3 × Vec3)) (cw ci : Option Affine)
    (ib : Option (List Body)) (cs : ComponentList) :
    ((Component.getPlane pw (Component.node
        ⟨nm, lt, cb, cbb, cw, ci, Payload.intersection ib none false⟩ cs)).map Prod.fst
      = firstPlaneOfList
          ((NodeData.getWorldD pw
            ⟨nm, lt, cb, cbb, cw, ci, Payload.intersection ib none false⟩).1) cs) ∧
    (∀ (self child child1 : Component) (ibs : Option (List Body))
       (cpl : Option PlaneG) (pop : Bool),
      self.payloadOf = Payload.intersection ibs cpl pop →
      Component.getPlane Affine.idA child = .ok (none, child1) →
      Intersection.checkCoplanarity self child none = .ok (none, child1)) := by
  constructor
  · have hstep : Component.getPlane pw (Component.node
        ⟨nm, lt, cb, cbb, cw, ci, Payload.intersection ib none false⟩ cs)
        = match Component.scanPlanes
            ((NodeData.getWorldD pw
              ⟨nm, lt, cb, cbb, cw, ci, Payload.intersection ib none false⟩).1) cs with
          | .error e => .error e
          | .ok (pl, cs') => .ok (pl, Component.node
              ⟨nm, lt, cb, cbb, cw, ci, Payload.intersection ib pl true⟩ cs') := by
      cases cw <;> rfl
    rw [hstep]
    cases h : Component.scanPlanes
        ((NodeData.getWorldD pw
          ⟨nm, lt, cb, cbb, cw, ci, Payload.intersection ib none false⟩).1) cs with
    | error e =>
      simp [Except.map,
        ← scanPlanes_firstPlane
          ((NodeData.getWorldD pw
            ⟨nm, lt, cb, cbb, cw, ci, Payload.intersection ib none false⟩).1) cs, h]
    | ok pr =>
      simp [Except.map,
        ← scanPlanes_firstPlane
          ((NodeData.getWorldD pw
            ⟨nm, lt, cb, cbb, cw, ci, Payload.intersection ib none false⟩).1) cs, h]
  · intro self child child1 ibs cpl pop hpays hchp
    unfold Intersection.checkCoplanarity
    rw [hpays]
    cases ibs with
    | none => exact hchp
    | some bs =>
      cases bs with
      | nil => simpa using hchp
      | cons b bs' => simp [hchp]

/-- C6 witness: an Intersection of two solid boxes (plane cache fresh)
reports a null representative plane (no child has one), matching the
insertion-order scan, and the check helper run with no established plane and
the planeless box child returns a null plane without error. -/
theorem intersection_plane_rule_witness :
    Component.node ⟨none, Affine.idA, none, none, none, none,
      Payload.intersection (some [Body.boolRes BoolType.intersectionT
        (Body.transformed Affine.idA (Body.boxPrim 1 1 1))
        (Body.transformed Affine.idA (Body.boxPrim 2 2 2))]) none false⟩
      interBoxW.childrenOf = interBoxW ∧
    (Component.getPlane Affine.idA interBoxW).map Prod.fst
      = firstPlaneOfList ((interBoxW.dataOf.getWorldD Affine.idA).1) interBoxW.childrenOf ∧
    (Component.getPlane Affine.idA interBoxW).map Prod.fst = .ok none ∧
    Intersection.checkCoplanarity interBoxW boxW none = .ok (none, boxW) := by
  have hnode : Component.node ⟨none, Affine.idA, none, none, none, none,
      Payload.intersection (some [Body.boolRes BoolType.intersectionT
        (Body.transformed Affine.idA (Body.boxPrim 1 1 1))
        (Body.transformed Affine.idA (Body.boxPrim 2 2 2))]) none false⟩
      interBoxW.childrenOf = interBoxW := by decide
  have h1 := (intersection_plane_rule Affine.idA none Affine.idA none none none none
    (some [Body.boolRes BoolType.intersectionT
      (Body.transformed Affine.idA (Body.boxPrim 1 1 1))
      (Body.transformed Affine.idA (Body.boxPrim 2 2 2))]) interBoxW.childrenOf).1
  have h2 := (intersection_plane_rule Affine.idA none Affine.idA none none none none
    (some [Body.boolRes BoolType.intersectionT
      (Body.transformed Affine.idA (Body.boxPrim 1 1 1))
      (Body.transformed Affine.idA (Body.boxPrim 2 2 2))]) interBoxW.childrenOf).2
    interBoxW boxW boxW
    (some [Body.boolRes BoolType.intersectionT
      (Body.transformed Affine.idA (Body.boxPrim 1 1 1))
      (Body.transformed Affine.idA (Body.boxPrim 2 2 2))]) none false
    (by decide) (by decide)
  refine ⟨hnode, ?_, by decide, h2⟩
  rw [hnode] at h1
  have hd : (⟨none, Affine.idA, none, none, none, none,
      Payload.intersection (some [Body.boolRes BoolType.intersectionT
        (Body.transformed Affine.idA (Body.boxPrim 1 1 1))
        (Body.transformed Affine.idA (Body.boxPrim 2 2 2))]) none false⟩ : NodeData)
      = interBoxW.dataOf := by decide
  rw [hd] at h1
  exact h1

mutual
theorem resetCache_allCleared : ∀ c : Component, c.resetCache.allCleared = true
  | .node d cs => by
    simp only [Component.resetCache, Component.allCleared, Option.isNone_none, Bool.true_and]
    exact resetCacheL_allCleared cs
theorem resetCacheL_allCleared : ∀ cs : ComponentList, cs.resetCacheL.allClearedL = true
  | .nil => rfl
  | .cons c cs => by
    simp only [ComponentList.resetCacheL, ComponentList.allClearedL,
      resetCache_allCleared c, resetCacheL_allCleared cs, Bool.and_self]
end

theorem subtreeAt_nil (c : Component) : c.subtreeAt [] = some c := by
  cases c; rfl

theorem modifyAtO_nil (c : Component) (f : Component → Option Component) :
    Component.modifyAtO c [] f = f c := by
  cases c; rfl

theorem allClearedL_get : ∀ (cs : ComponentList) (i : Nat) (ch : Component),
    cs.allClearedL = true → cs.get? i = some ch → ch.allCleared = true
  | .nil, _, _, _, h => by cases h
  | .cons c cs, 0, ch, hall, h => by
    injection h with h
    subst h
    simp only [ComponentList.allClearedL, Bool.and_eq_true] at hall
    exact hall.1
  | .cons c cs, i + 1, ch, hall, h => by
    simp only [ComponentList.allClearedL, Bool.and_eq_true] at hall
    exact allClearedL_get cs i ch hall.2 h

theorem allCleared_subtree : ∀ (r : List Nat) (c n : Component),
    c.allCleared = true → c.subtreeAt r = some n →
    n.dataOf.cachedBodies = none ∧ n.dataOf.cachedBBox = none ∧ n.dataOf.cachedWorld = none
  | [], c, n, hall, h => by
    rw [subtreeAt_nil] at h
    injection h with h
    subst h
    cases c with
    | node d cs =>
      simp only [Component.allCleared, Bool.and_eq_true, Option.isNone_iff_eq_none] at hall
      exact ⟨hall.1.1.1, hall.1.1.2, hall.1.2⟩
  | i :: r, .node d cs, n, hall, h => by
    simp only [Component.subtreeAt] at h
    cases hg : cs.get? i with
    | none => rw [hg] at h; cases h
    | some ch =>
      rw [hg] at h
      simp only [Option.some_bind] at h
      have hcs : cs.allClearedL = true := by
        simp only [Component.allCleared, Bool.and_eq_true] at hall
        exact hall.2
      exact allCleared_subtree r ch n (allClearedL_get cs i ch hcs hg) h

theorem get?_setAt_self : ∀ (cs : ComponentList) (i : Nat) (ch ch' : Component),
    cs.get? i = some ch → (cs.setAt i ch').get? i = some ch'
  | .nil, _, _, _, h => by cases h
  | .cons c cs, 0, ch, ch', _ => rfl
  | .cons c cs, i + 1, ch, ch', h => get?_setAt_self cs i ch ch' h

theorem get?_setAt_ne : ∀ (cs : ComponentList) (i j : Nat) (ch' : Component), i ≠ j →
    (cs.setAt i ch').get? j = cs.get? j
  | .nil, _, _, _, _ => rfl
  | .cons c cs, 0, 0, ch', hne => absurd rfl hne
  | .cons c cs, 0, j + 1, ch', _ => rfl
  | .cons c cs, i + 1, 0, ch', _ => rfl
  | .cons c cs, i + 1, j + 1, ch', hne =>
    get?_setAt_ne cs i j ch' (fun he => hne (by rw [he]))

theorem subtreeAt_append : ∀ (p r : List Nat) (c : Component),
    c.subtreeAt (p ++ r) = (c.subtreeAt p).bind (fun n => n.subtreeAt r)
  | [], r, c => by simp [subtreeAt_nil]
  | i :: p, r, .node d cs => by
    simp only [List.cons_append, Component.subtreeAt]
    cases hg : cs.get? i with
    | none => rfl
    | some ch =>
      simp only [Option.some_bind]
      exact subtreeAt_append p r ch

theorem modifyAtO_spec : ∀ (p : List Nat) (root root' : Component)
    (f : Component → Option Component),
    Component.modifyAtO root p f = some root' →
    ∃ n n', root.subtreeAt p = some n ∧ f n = some n' ∧ root'.subtreeAt p = some n' ∧
      (∀ q, pathUnder q p = false → root'.dataAt q = root.dataAt q)
  | [], root, root', f, h => by
    rw [modifyAtO_nil] at h
    refine ⟨root, root', subtreeAt_nil root, h, subtreeAt_nil root', ?_⟩
    intro q hq
    cases q with
    | nil => cases hq
    | cons j q' => cases hq
  | i :: p, .node d cs, root', f, h => by
    simp only [Component.modifyAtO] at h
    cases hg : cs.get? i with
    | none => rw [hg] at h; cases h
    | some ch =>
      rw [hg] at h
      simp only [Option.some_bind] at h
      cases hm : Component.modifyAtO ch p f with
      | none => rw [hm] at h; cases h
      | some m =>
        rw [hm] at h
        simp only [Option.map_some'] at h
        injection h with h
        subst h
        obtain ⟨n, n', hsub, hf, hsub', hout⟩ := modifyAtO_spec p ch m f hm
        refine ⟨n, n', ?_, hf, ?_, ?_⟩
        · simp only [Component.subtreeAt, hg, Option.some_bind]
          exact hsub
        · simp only [Component.subtreeAt, get?_setAt_self cs i ch m hg, Option.some_bind]
          exact hsub'
        · intro q hq
          cases q with
          | nil => rfl
          | cons j q' =>
            by_cases hij : j = i
            · subst hij
              have hq' : pathUnder q' p = false := by simpa [pathUnder] using hq
              simp only [Component.dataAt, Component.subtreeAt,
                get?_setAt_self cs j ch m hg, hg, Option.some_bind]
              have := hout q' hq'
              simpa [Component.dataAt] using this
            · simp only [Component.dataAt, Component.subtreeAt,
                get?_setAt_ne cs i j m (fun he => hij he.symm)]

theorem mutation_leaves_cleared : ∀ (m : Mutation) (n n' : Component),
    m.applyM n = some n' → n'.allCleared = true := by
  intro m n n' h
  cases m with
  | translate a b c =>
    injection h with h
    rw [← h]
    exact resetCache_allCleared _
  | rotate a b c ctr =>
    injection h with h
    rw [← h]
    exact resetCache_allCleared _
  | scale a b c ctr =>
    simp only [Mutation.applyM, Component.scale] at h
    by_cases hc : |a| ≠ |b| ∨ |b| ≠ |c|
    · rw [if_pos hc] at h; cases h
    · rw [if_neg hc] at h
      simp only [Except.toOption] at h
      injection h with h
      rw [← h]
      exact resetCache_allCleared _
  | place a b c =>
    injection h with h
    rw [← h]
    exact resetCache_allCleared _
  | invalidate =>
    injection h with h
    rw [← h]
    exact resetCache_allCleared _

/-- C3: every transform-affecting mutation invoked on a node — translate
(hence tx/ty/tz), rotate (hence rx/ry/rz), a successful scale, place, and a
bare cache invalidation — synchronously leaves the node's own cached world
transform, bounding box and body list empty, and recursively those of every
descendant, while every node outside the mutated subtree (in particular
every ancestor) keeps its own data, caches included, bit for bit. -/
theorem mutation_invalidation (root root' : Component) (p : List Nat) (m : Mutation)
    (h : Component.applyMutationAt root (p, m) = some root') :
    (∀ r n, root'.subtreeAt (p ++ r) = some n →
      n.dataOf.cachedBodies = none ∧ n.dataOf.cachedBBox = none
        ∧ n.dataOf.cachedWorld = none) ∧
    (∀ q, pathUnder q p = false → root'.dataAt q = root.dataAt q) := by
  obtain ⟨n, n', hsub, hf, hsub', hout⟩ := modifyAtO_spec p root root' _ h
  have hclear : n'.allCleared = true := mutation_leaves_cleared m n n' hf
  constructor
  · intro r nn hr
    rw [subtreeAt_append, hsub', Option.some_bind] at hr
    exact allCleared_subtree r n' nn hclear hr
  · exact hout

/-- C3 witness: translating the child of `unionBoxW` clears that child's
caches and leaves the root node's data untouched. -/
theorem mutation_invalidation_witness :
    Component.applyMutationAt unionBoxW ([0], Mutation.translate 1 0 0) = some c3TreeW ∧
    c3TreeW.subtreeAt ([0] ++ []) = some c3NodeW ∧
    (c3NodeW.dataOf.cachedBodies = none ∧ c3NodeW.dataOf.cachedBBox = none
      ∧ c3NodeW.dataOf.cachedWorld = none) ∧
    pathUnder [] [0] = false ∧
    c3TreeW.dataAt [] = unionBoxW.dataAt [] := by
  have h : Component.applyMutationAt unionBoxW ([0], Mutation.translate 1 0 0)
      = some c3TreeW := by decide
  have main := mutation_invalidation unionBoxW c3TreeW [0] (Mutation.translate 1 0 0) h
  exact ⟨h, by decide, main.1 [] c3NodeW (by decide), by decide, main.2 [] (by decide)⟩

mutual
theorem cacheOK_of_allCleared : ∀ (c : Component) (pw : Affine),
    c.allCleared = true → c.cacheOK pw = true
  | .node d cs, pw, h => by
    simp only [Component.allCleared, Bool.and_eq_true, Option.isNone_iff_eq_none] at h
    simp only [Component.cacheOK, h.1.2, Bool.true_and]
    exact cacheOKL_of_allCleared cs (pw.comp d.localTransform) h.2
theorem cacheOKL_of_allCleared : ∀ (cs : ComponentList) (pw : Affine),
    cs.allClearedL = true → cs.cacheOKL pw = true
  | .nil, _, _ => rfl
  | .cons c cs, pw, h => by
    simp only [ComponentList.allClearedL, Bool.and_eq_true] at h
    simp only [ComponentList.cacheOKL, Bool.and_eq_true]
    exact ⟨cacheOK_of_allCleared c pw h.1, cacheOKL_of_allCleared cs pw h.2⟩
end

theorem cacheOKL_get : ∀ (cs : ComponentList) (i : Nat) (ch : Component) (pw : Affine),
    cs.cacheOKL pw = true → cs.get? i = some ch → ch.cacheOK pw = true
  | .nil, _, _, _, _, h => by cases h
  | .cons c cs, 0, ch, pw, hall, h => by
    injection h with h
    subst h
    simp only [ComponentList.cacheOKL, Bool.and_eq_true] at hall
    exact hall.1
  | .cons c cs, i + 1, ch, pw, hall, h => by
    simp only [ComponentList.cacheOKL, Bool.and_eq_true] at hall
    exact cacheOKL_get cs i ch pw hall.2 h

theorem cacheOKL_setAt : ∀ (cs : ComponentList) (i : Nat) (ch' : Component) (pw : Affine),
    cs.cacheOKL pw = true → ch'.cacheOK pw = true → (cs.setAt i ch').cacheOKL pw = true
  | .nil, _, _, _, h, _ => h
  | .cons c cs, 0, ch', pw, hall, hch => by
    simp only [ComponentList.cacheOKL, Bool.and_eq_true] at hall ⊢
    exact ⟨hch, hall.2⟩
  | .cons c cs, i + 1, ch', pw, hall, hch => by
    simp only [ComponentList.cacheOKL, Bool.and_eq_true] at hall ⊢
    exact ⟨hall.1, cacheOKL_setAt cs i ch' pw hall.2 hch⟩

theorem cacheOK_modifyAtO : ∀ (p : List Nat) (root root' : Component)
    (f : Component → Option Component) (pw : Affine),
    root.cacheOK pw = true →
    (∀ n n', f n = some n' → ∀ pw', n'.cacheOK pw' = true) →
    Component.modifyAtO root p f = some root' → root'.cacheOK pw = true
  | [], root, root', f, pw, _, hf, h => by
    rw [modifyAtO_nil] at h
    exact hf root root' h pw
  | i :: p, .node d cs, root', f, pw, hok, hf, h => by
    simp only [Component.modifyAtO] at h
    cases hg : cs.get? i with
    | none => rw [hg] at h; cases h
    | some ch =>
      rw [hg] at h
      simp only [Option.some_bind] at h
      cases hm : Component.modifyAtO ch p f with
      | none => rw [hm] at h; cases h
      | some m =>
        rw [hm] at h
        simp only [Option.map_some'] at h
        injection h with h
        subst h
        simp only [Component.cacheOK, Bool.and_eq_true] at hok ⊢
        refine ⟨hok.1, ?_⟩
        have hch : ch.cacheOK (pw.comp d.localTransform) = true :=
          cacheOKL_get cs i ch _ hok.2 hg
        exact cacheOKL_setAt cs i m _ hok.2
          (cacheOK_modifyAtO p ch m f _ hch hf hm)

theorem mutationAt_cacheOK (c c' : Component) (pm : List Nat × Mutation) (pw : Affine)
    (hok : c.cacheOK pw = true) (h : Component.applyMutationAt c pm = some c') :
    c'.cacheOK pw = true :=
  cacheOK_modifyAtO pm.1 c c' _ pw hok
    (fun n n' hf pw' => cacheOK_of_allCleared n' pw' (mutation_leaves_cleared pm.2 n n' hf)) h

theorem applyAll_cacheOK : ∀ (ms : List (List Nat × Mutation)) (c c' : Component),
    c.cacheOK Affine.idA = true → Component.applyAll ms c = some c' →
    c'.cacheOK Affine.idA = true
  | [], c, c', h0, h => by
    simp only [Component.applyAll, List.foldlM_nil] at h
    injection h with h
    subst h
    exact h0
  | pm :: ms, c, c', h0, h => by
    simp only [Component.applyAll, List.foldlM_cons] at h
    cases hstep : Component.applyMutationAt c pm with
    | none => rw [hstep] at h; cases h
    | some c1 =>
      rw [hstep] at h
      simp only [Option.bind_eq_bind, Option.some_bind] at h
      exact applyAll_cacheOK ms c1 c' (mutationAt_cacheOK c c1 pm Affine.idA h0 hstep) h

theorem trueWorldAt_nil (pw : Affine) (c : Component) :
    Component.trueWorldAt pw c [] = some (pw.comp c.localOf) := by
  cases c; rfl

theorem fillWorld_trueWorld : ∀ (p : List Nat) (pw : Affine) (c : Component)
    (w : Affine) (c' : Component),
    Component.fillWorld pw c p = some (w, c') → Component.trueWorldAt pw c p = some w
  | [], pw, .node d cs, w, c', h => by
    simp only [Component.fillWorld, Option.some.injEq, Prod.mk.injEq] at h
    rw [trueWorldAt_nil]
    exact congrArg some h.1
  | i :: p, pw, .node d cs, w, c', h => by
    simp only [Component.fillWorld] at h
    cases hg : cs.get? i with
    | none => rw [hg] at h; cases h
    | some ch =>
      rw [hg] at h
      simp only [Option.some_bind] at h
      cases hfill : Component.fillWorld (pw.comp d.localTransform) ch p with
      | none => rw [hfill] at h; cases h
      | some pr =>
        rw [hfill] at h
        simp only [Option.map_some', Option.some.injEq, Prod.mk.injEq] at h
        simp only [Component.trueWorldAt, hg, Option.some_bind]
        rw [← h.1]
        exact fillWorld_trueWorld p (pw.comp d.localTransform) ch pr.1 pr.2
          (by rw [hfill])

theorem getWTAux_hit : ∀ (p : List Nat) (c : Component) (pw w : Affine) (c' : Component),
    c.cacheOK pw = true → Component.getWTAux c p = some (WTStep.hit w c') →
    Component.trueWorldAt pw c p = some w
  | [], .node d cs, pw, w, c', hok, h => by
    simp only [Component.getWTAux, Component.dataOf] at h
    cases hcw : d.cachedWorld with
    | none => rw [hcw] at h; cases h
    | some w0 =>
      rw [hcw] at h
      injection h with h
      injection h with hw _
      simp only [Component.cacheOK, hcw, Bool.and_eq_true, decide_eq_true_eq] at hok
      rw [trueWorldAt_nil, ← hw, hok.1]
      rfl
  | i :: p, .node d cs, pw, w, c', hok, h => by
    simp only [Component.getWTAux] at h
    cases hg : cs.get? i with
    | none => rw [hg] at h; cases h
    | some ch =>
      rw [hg] at h
      simp only [Option.some_bind] at h
      simp only [Component.cacheOK, Bool.and_eq_true] at hok
      have hch : ch.cacheOK (pw.comp d.localTransform) = true :=
        cacheOKL_get cs i ch _ hok.2 hg
      cases haux : Component.getWTAux ch p with
      | none => rw [haux] at h; cases h
      | some st =>
        rw [haux] at h
        simp only [Option.some_bind] at h
        cases st with
        | hit w1 ch1 =>
          injection h with h
          injection h with hw _
          simp only [Component.trueWorldAt, hg, Option.some_bind]
          rw [← hw]
          exact getWTAux_hit p ch (pw.comp d.localTransform) w1 ch1 hch haux
        | miss =>
          cases hcw : d.cachedWorld with
          | none => rw [hcw] at h; cases h
          | some pwc =>
            rw [hcw] at h
            dsimp only at h
            cases hfill : Component.fillWorld pwc ch p with
            | none => rw [hfill] at h; cases h
            | some pr =>
              rw [hfill] at h
              simp only [Option.map_some'] at h
              injection h with h
              injection h with hw _
              have hpwc : pwc = pw.comp d.localTransform := by
                have := hok.1
                rw [hcw] at this
                simpa using this
              simp only [Component.trueWorldAt, hg, Option.some_bind]
              rw [← hw, ← hpwc]
              exact fillWorld_trueWorld p pwc ch pr.1 pr.2 (by rw [hfill])

theorem getWorldTransformAt_trueWorld (root : Component) (p : List Nat)
    (w : Affine) (r : Component)
    (hok : root.cacheOK Affine.idA = true)
    (h : Component.getWorldTransformAt root p = some (w, r)) :
    Component.trueWorldAt Affine.idA root p = some w := by
  unfold Component.getWorldTransformAt at h
  cases haux : root.getWTAux p with
  | none => rw [haux] at h; cases h
  | some st =>
    rw [haux] at h
    simp only [Option.some_bind] at h
    cases st with
    | hit w1 r1 =>
      dsimp only at h
      injection h with h
      injection h with hw _
      rw [← hw]
      exact getWTAux_hit p root Affine.idA w1 r1 hok haux
    | miss =>
      dsimp only at h
      cases hfill : root.fillWorld Affine.idA p with
      | none => rw [hfill] at h; cases h
      | some pr =>
        rw [hfill] at h
        injection h with h
        subst h
        exact fillWorld_trueWorld p Affine.idA root w r hfill

theorem trueWorldAt_snoc : ∀ (p : List Nat) (i : Nat) (pw : Affine) (c : Component)
    (w : Affine),
    Component.trueWorldAt pw c (p ++ [i]) = some w →
    ∃ n wp, c.subtreeAt (p ++ [i]) = some n ∧
      Component.trueWorldAt pw c p = some wp ∧ w = wp.comp n.localOf
  | [], i, pw, .node d cs, w, h => by
    simp only [List.nil_append, Component.trueWorldAt] at h
    cases hg : cs.get? i with
    | none => rw [hg] at h; cases h
    | some ch =>
      rw [hg] at h
      simp only [Option.some_bind] at h
      injection h with h
      refine ⟨ch, pw.comp d.localTransform, ?_, trueWorldAt_nil pw _, ?_⟩
      · simp only [List.nil_append, Component.subtreeAt, hg, Option.some_bind, subtreeAt_nil]
      · exact h.symm
  | j :: p, i, pw, .node d cs, w, h => by
    simp only [List.cons_append, Component.trueWorldAt] at h
    cases hg : cs.get? j with
    | none => rw [hg] at h; cases h
    | some ch =>
      rw [hg] at h
      simp only [Option.some_bind] at h
      obtain ⟨n, wp, hsub, hwp, hw⟩ :=
        trueWorldAt_snoc p i (pw.comp d.localTransform) ch w h
      refine ⟨n, wp, ?_, ?_, hw⟩
      · simp only [List.cons_append, Component.subtreeAt, hg, Option.some_bind]
        exact hsub
      · simp only [Component.trueWorldAt, hg, Option.some_bind]
        exact hwp

/-- C1: after any successful sequence of translate/rotate/scale/place
mutations and bare cache invalidations, starting from any tree whose world
caches are coherent (a freshly constructed tree has them all empty), a
`_get_world_transform` query on a node with a parent reports exactly the
composition of the node's local transform (applied first) with what the same
query reports on the parent, and on the parentless root it reports exactly
the root's local transform. -/
theorem world_transform_composition (c0 c : Component)
    (ms : List (List Nat × Mutation))
    (h0 : c0.cacheOK Affine.idA = true)
    (hm : Component.applyAll ms c0 = some c) :
    (∀ (p : List Nat) (i : Nat) (wN wP : Affine) (rN rP : Component),
      Component.getWorldTransformAt c (p ++ [i]) = some (wN, rN) →
      Component.getWorldTransformAt c p = some (wP, rP) →
      ∃ n, c.subtreeAt (p ++ [i]) = some n ∧ wN = wP.comp n.localOf) ∧
    (∀ (w : Affine) (r : Component),
      Component.getWorldTransformAt c [] = some (w, r) → w = c.localOf) := by
  have hok : c.cacheOK Affine.idA = true := applyAll_cacheOK ms c0 c h0 hm
  constructor
  · intro p i wN wP rN rP hN hP
    have hN' := getWorldTransformAt_trueWorld c (p ++ [i]) wN rN hok hN
    have hP' := getWorldTransformAt_trueWorld c p wP rP hok hP
    obtain ⟨n, wp, hsub, hwp, hw⟩ := trueWorldAt_snoc p i Affine.idA c wN hN'
    rw [hwp] at hP'
    injection hP' with hP'
    exact ⟨n, hsub, by rw [hw, hP']⟩
  · intro w r h
    have h' := getWorldTransformAt_trueWorld c [] w r hok h
    rw [trueWorldAt_nil] at h'
    injection h' with h'
    rw [← h', Affine.idA_comp]

/-- C1 witness: the freshly built `unionBoxW` translated at the root; the
child's reported world transform is the root's reported transform composed
with the child's local transform, and the root's is its own local
transform. -/
theorem world_transform_composition_witness :
    unionBoxW.cacheOK Affine.idA = true ∧
    Component.applyAll [([], Mutation.translate 1 2 3)] unionBoxW = some c1TreeW ∧
    Component.getWorldTransformAt c1TreeW ([] ++ [0]) = some (c1ChildQW.1, c1ChildQW.2) ∧
    Component.getWorldTransformAt c1TreeW [] = some (c1RootQW.1, c1RootQW.2) ∧
    (∃ n, c1TreeW.subtreeAt ([] ++ [0]) = some n
      ∧ c1ChildQW.1 = c1RootQW.1.comp n.localOf) ∧
    c1RootQW.1 = c1TreeW.localOf := by
  have h0 : unionBoxW.cacheOK Affine.idA = true := by decide
  have hm : Component.applyAll [([], Mutation.translate 1 2 3)] unionBoxW
      = some c1TreeW := by decide
  have main := world_transform_composition unionBoxW c1TreeW
    [([], Mutation.translate 1 2 3)] h0 hm
  exact ⟨h0, hm, by decide, by decide,
    main.1 [] 0 c1ChildQW.1 c1RootQW.1 c1ChildQW.2 c1RootQW.2 (by decide) (by decide),
    main.2 c1RootQW.1 c1RootQW.2 (by decide)⟩

theorem eraseCaches_node (d : NodeData) (cs : ComponentList) :
    (Component.node d cs).eraseCaches = Component.node d.stripCaches cs.eraseCachesL := rfl

theorem stripCaches_getWorldD (pw : Affine) (d : NodeData) :
    ((d.getWorldD pw).2).stripCaches = d.stripCaches := by
  unfold NodeData.getWorldD
  cases hcw : d.cachedWorld <;> rfl

theorem getWorldD_localTransform (pw : Affine) (d : NodeData) :
    ((d.getWorldD pw).2).localTransform = d.localTransform := by
  unfold NodeData.getWorldD
  cases hcw : d.cachedWorld <;> rfl

theorem getWorldD_val (pw : Affine) (d : NodeData) (h : d.worldCacheOK pw = true) :
    (d.getWorldD pw).1 = pw.comp d.localTransform := by
  unfold NodeData.getWorldD
  unfold NodeData.worldCacheOK at h
  cases hcw : d.cachedWorld with
  | none => rfl
  | some w =>
    rw [hcw] at h
    simpa using h

theorem stripCaches_bodiesD (pw : Affine) (d : NodeData) (bs : List Body) (d' : NodeData)
    (h : d.bodiesD pw = .ok (bs, d')) : d'.stripCaches = d.stripCaches := by
  unfold NodeData.bodiesD at h
  cases hcb : d.cachedBodies with
  | some bs0 =>
    rw [hcb] at h
    injection h with h
    injection h with _ h
    rw [← h]
  | none =>
    rw [hcb] at h
    dsimp only at h
    cases hrb : ((d.getWorldD pw).2).payload.rawBodies with
    | error e => rw [hrb] at h; cases h
    | ok raws =>
      rw [hrb] at h
      injection h with h
      injection h with _ h
      rw [← h]
      have hs := stripCaches_getWorldD pw d
      rw [← hs]
      unfold NodeData.stripCaches
      rfl

theorem bodiesD_localTransform (pw : Affine) (d : NodeData) (bs : List Body) (d' : NodeData)
    (h : d.bodiesD pw = .ok (bs, d')) : d'.localTransform = d.localTransform := by
  have hs := stripCaches_bodiesD pw d bs d' h
  have : d'.stripCaches.localTransform = d.stripCaches.localTransform := by rw [hs]
  simpa [NodeData.stripCaches] using this

theorem inverseTransformD_localTransform (pw : Affine) (d : NodeData) :
    ((d.inverseTransformD pw).2).localTransform = d.localTransform := by
  unfold NodeData.inverseTransformD
  cases hci : d.cachedInverse with
  | some m => rfl
  | none =>
    dsimp only
    exact getWorldD_localTransform pw d

theorem inverseTransformD_val (pw : Affine) (d : NodeData)
    (h : d.inverseCacheOK pw = true) :
    (d.inverseTransformD pw).1 = (pw.comp d.localTransform).invA := by
  unfold NodeData.inverseCacheOK at h
  simp only [Bool.and_eq_true] at h
  unfold NodeData.inverseTransformD
  cases hci : d.cachedInverse with
  | some m =>
    have := h.2
    rw [hci] at this
    simpa using this
  | none =>
    dsimp only
    rw [getWorldD_val pw d h.1]

theorem resetCache_localOf (c : Component) : c.resetCache.localOf = c.localOf := by
  cases c; rfl

theorem resetCache_childrenOf (d : NodeData) (cs : ComponentList) :
    (Component.node d cs).resetCache.childrenOf = cs.resetCacheL := rfl

theorem lastC_append : ∀ (cs : ComponentList) (k : Component),
    (cs.append k).lastC = some k
  | .nil, k => rfl
  | .cons c .nil, k => rfl
  | .cons c (.cons c2 cs), k => lastC_append (.cons c2 cs) k

theorem lastC_resetCacheL : ∀ cs : ComponentList,
    cs.resetCacheL.lastC = cs.lastC.map Component.resetCache
  | .nil => rfl
  | .cons c .nil => rfl
  | .cons c (.cons c2 cs) => by
    have ih := lastC_resetCacheL (.cons c2 cs)
    simpa [ComponentList.resetCacheL, ComponentList.lastC] using ih

theorem get?_eraseCachesL : ∀ (cs : ComponentList) (i : Nat),
    cs.eraseCachesL.get? i = (cs.get? i).map Component.eraseCaches
  | .nil, _ => rfl
  | .cons c cs, 0 => rfl
  | .cons c cs, i + 1 => get?_eraseCachesL cs i

theorem get?_resetCacheL : ∀ (cs : ComponentList) (i : Nat),
    cs.resetCacheL.get? i = (cs.get? i).map Component.resetCache
  | .nil, _ => rfl
  | .cons c cs, 0 => rfl
  | .cons c cs, i + 1 => get?_resetCacheL cs i

theorem eraseCaches_localOf (c : Component) : c.eraseCaches.localOf = c.localOf := by
  cases c; rfl

theorem trueWorldAt_erase : ∀ (q : List Nat) (pw : Affine) (c : Component),
    Component.trueWorldAt pw c.eraseCaches q = Component.trueWorldAt pw c q
  | [], pw, c => by rw [trueWorldAt_nil, trueWorldAt_nil, eraseCaches_localOf]
  | i :: q, pw, .node d cs => by
    rw [eraseCaches_node]
    simp only [Component.trueWorldAt, get?_eraseCachesL]
    cases hg : cs.get? i with
    | none => rfl
    | some ch =>
      simp only [Option.map_some', Option.some_bind]
      have hd : d.stripCaches.localTransform = d.localTransform := rfl
      rw [hd]
      exact trueWorldAt_erase q (pw.comp d.localTransform) ch

theorem trueWorldAt_resetCache : ∀ (q : List Nat) (pw : Affine) (c : Component),
    Component.trueWorldAt pw c.resetCache q = Component.trueWorldAt pw c q
  | [], pw, c => by rw [trueWorldAt_nil, trueWorldAt_nil, resetCache_localOf]
  | i :: q, pw, .node d cs => by
    simp only [Component.resetCache, Component.trueWorldAt, get?_resetCacheL]
    cases hg : cs.get? i with
    | none => rfl
    | some ch =>
      simp only [Option.map_some', Option.some_bind]
      exact trueWorldAt_resetCache q (pw.comp d.localTransform) ch

theorem trueWorldAt_withLocal : ∀ (q : List Nat) (pw1 pw2 L : Affine) (c : Component),
    pw1.comp L = pw2.comp c.localOf →
    Component.trueWorldAt pw1 (c.withLocal L) q = Component.trueWorldAt pw2 c q
  | [], pw1, pw2, L, .node d cs, h => by
    rw [trueWorldAt_nil, trueWorldAt_nil]
    exact congrArg some h
  | i :: q, pw1, pw2, L, .node d cs, h => by
    simp only [Component.withLocal, Component.trueWorldAt]
    have hL : L = (Component.node { d with localTransform := L } cs).localOf := rfl
    rw [show pw1.comp L = pw2.comp d.localTransform from h]

theorem cacheOK_worldCacheOK (pw : Affine) (d : NodeData) (cs : ComponentList)
    (h : (Component.node d cs).cacheOK pw = true) : d.worldCacheOK pw = true := by
  simp only [Component.cacheOK, Bool.and_eq_true] at h
  unfold NodeData.worldCacheOK
  exact h.1

theorem cacheOK_children (pw : Affine) (d : NodeData) (cs : ComponentList)
    (h : (Component.node d cs).cacheOK pw = true) :
    cs.cacheOKL (pw.comp d.localTransform) = true := by
  simp only [Component.cacheOK, Bool.and_eq_true] at h
  exact h.2

theorem stripCaches_inverseTransformD (pw : Affine) (d : NodeData) :
    ((d.inverseTransformD pw).2).stripCaches = d.stripCaches := by
  unfold NodeData.inverseTransformD
  cases hci : d.cachedInverse with
  | some m => rfl
  | none =>
    dsimp only
    rw [← stripCaches_getWorldD pw d]
    unfold NodeData.stripCaches
    rfl

theorem inverseTransformD_idem (pw : Affine) (d : NodeData) :
    ((d.inverseTransformD pw).2).inverseTransformD pw = d.inverseTransformD pw := by
  unfold NodeData.inverseTransformD
  cases hci : d.cachedInverse with
  | some m => rw [hci]
  | none => rfl

theorem toListC_append : ∀ (cs : ComponentList) (k : Component),
    (cs.append k).toListC = cs.toListC ++ [k]
  | .nil, k => rfl
  | .cons c cs, k => by
    simp only [ComponentList.append, ComponentList.toListC, toListC_append cs k,
      List.cons_append]

theorem toListC_appendAll : ∀ (ks : List Component) (cs : ComponentList),
    (cs.appendAll ks).toListC = cs.toListC ++ ks
  | [], cs => by simp [ComponentList.appendAll]
  | k :: ks, cs => by
    simp only [ComponentList.appendAll, toListC_appendAll ks, toListC_append,
      List.append_assoc, List.singleton_append]

theorem get?_toListC : ∀ (cs : ComponentList) (i : Nat),
    cs.get? i = cs.toListC.get? i
  | .nil, _ => rfl
  | .cons c cs, 0 => rfl
  | .cons c cs, i + 1 => get?_toListC cs i

theorem addChildrenSimple_spec : ∀ (pw : Affine) (d : NodeData) (cs : ComponentList)
    (ks : List Component),
    ∃ d', d'.stripCaches = d.stripCaches ∧
      Component.addChildrenSimple pw (.node d cs) ks
        = Component.resetCache (.node d' (cs.appendAll (ks.map fun k =>
            Component.resetCache (k.withLocal ((d.inverseTransformD pw).1.comp k.localOf)))))
  | pw, d, cs, [] => ⟨d, rfl, rfl⟩
  | pw, d, cs, k :: ks => by
    obtain ⟨d', hstrip, heq⟩ := addChildrenSimple_spec pw (d.inverseTransformD pw).2
      (cs.append (Component.resetCache
        (k.withLocal ((d.inverseTransformD pw).1.comp k.localOf)))) ks
    refine ⟨d', ?_, ?_⟩
    · rw [hstrip, stripCaches_inverseTransformD]
    · show Component.addChildrenSimple pw
        (Component.node (d.inverseTransformD pw).2
          (cs.append (Component.resetCache
            (k.withLocal ((d.inverseTransformD pw).1.comp k.localOf))))) ks = _
      rw [heq]
      simp only [inverseTransformD_idem, List.map_cons, ComponentList.appendAll]

theorem addChildrenSimple_localOf : ∀ (pw : Affine) (self : Component)
    (ks : List Component),
    (Component.addChildrenSimple pw self ks).localOf = self.localOf
  | pw, .node d cs, [] => resetCache_localOf (.node d cs)
  | pw, .node d cs, k :: ks => by
    show (Component.addChildrenSimple pw
      ((Component.node (d.inverseTransformD pw).2 cs).appendChild
        (Component.resetCache
          (k.withLocal ((d.inverseTransformD pw).1.comp k.localOf)))) ks).localOf = _
    rw [addChildrenSimple_localOf pw _ ks]
    show ((d.inverseTransformD pw).2).localTransform = d.localTransform
    exact inverseTransformD_localTransform pw d

mutual
theorem copy_eraseCaches : ∀ (pw : Affine) (c k src : Component),
    Component.copyC pw c = .ok (k, src) → src.eraseCaches = c.eraseCaches
  | pw, .node d cs, k, src, h => by
    simp only [Component.copyC] at h
    cases hp : ((d.getWorldD pw).2).payload with
    | shape b pl =>
      rw [hp] at h
      injection h with h
      injection h with _ h
      rw [← h, eraseCaches_node, eraseCaches_node]
      rw [stripCaches_getWorldD]
    | union ub =>
      rw [hp] at h
      cases ub with
      | none => cases h
      | some b =>
        cases hcl : Component.copyList (d.getWorldD pw).1 cs with
        | error e => rw [hcl] at h; cases h
        | ok pr =>
          rw [hcl] at h
          dsimp only at h
          injection h with h
          injection h with _ h
          rw [← h, eraseCaches_node, eraseCaches_node]
          rw [stripCaches_getWorldD,
            copyList_eraseCaches (d.getWorldD pw).1 cs pr.1 pr.2 (by rw [hcl])]
    | difference db =>
      rw [hp] at h
      cases hb : NodeData.bodiesD pw (d.getWorldD pw).2 with
      | error e => rw [hb] at h; cases h
      | ok prb =>
        rw [hb] at h
        dsimp only at h
        cases hcl : Component.copyList (d.getWorldD pw).1 cs with
        | error e => rw [hcl] at h; cases h
        | ok pr =>
          rw [hcl] at h
          dsimp only at h
          injection h with h
          injection h with _ h
          rw [← h, eraseCaches_node, eraseCaches_node]
          rw [stripCaches_bodiesD pw (d.getWorldD pw).2 prb.1 prb.2 (by rw [hb]),
            stripCaches_getWorldD,
            copyList_eraseCaches (d.getWorldD pw).1 cs pr.1 pr.2 (by rw [hcl])]
    | intersection ib cp pop =>
      rw [hp] at h
      cases hb : NodeData.bodiesD pw (d.getWorldD pw).2 with
      | error e => rw [hb] at h; cases h
      | ok prb =>
        rw [hb] at h
        dsimp only at h
        cases hcl : Component.copyList (d.getWorldD pw).1 cs with
        | error e => rw [hcl] at h; cases h
        | ok pr =>
          rw [hcl] at h
          dsimp only at h
          injection h with h
          injection h with _ h
          rw [← h, eraseCaches_node, eraseCaches_node]
          rw [stripCaches_bodiesD pw (d.getWorldD pw).2 prb.1 prb.2 (by rw [hb]),
            stripCaches_getWorldD,
            copyList_eraseCaches (d.getWorldD pw).1 cs pr.1 pr.2 (by rw [hcl])]
theorem copyList_eraseCaches : ∀ (pw : Affine) (cs : ComponentList) (ks : List Component)
    (cs' : ComponentList),
    Component.copyList pw cs = .ok (ks, cs') → cs'.eraseCachesL = cs.eraseCachesL
  | pw, .nil, ks, cs', h => by
    injection h with h
    injection h with _ h
    rw [← h]
  | pw, .cons c cs, ks, cs', h => by
    simp only [Component.copyList] at h
    cases hc : Component.copyC pw c with
    | error e => rw [hc] at h; cases h
    | ok prc =>
      rw [hc] at h
      dsimp only at h
      cases hcl : Component.copyList pw cs with
      | error e => rw [hcl] at h; cases h
      | ok prl =>
        rw [hcl] at h
        dsimp only at h
        injection h with h
        injection h with _ h
        rw [← h]
        show ComponentList.eraseCachesL (.cons prc.2 prl.2) = _
        simp only [ComponentList.eraseCachesL]
        rw [copy_eraseCaches pw c prc.1 prc.2 (by rw [hc]),
          copyList_eraseCaches pw cs prl.1 prl.2 (by rw [hcl])]
end

theorem copyC_localOf : ∀ (pw : Affine) (c k src : Component),
    Component.copyC pw c = .ok (k, src) → k.localOf = (c.dataOf.getWorldD pw).1
  | pw, .node d cs, k, src, h => by
    simp only [Component.copyC] at h
    cases hp : ((d.getWorldD pw).2).payload with
    | shape b pl =>
      rw [hp] at h
      injection h with h
      injection h with h _
      rw [← h]
      rfl
    | union ub =>
      rw [hp] at h
      cases ub with
      | none => cases h
      | some b =>
        cases hcl : Component.copyList (d.getWorldD pw).1 cs with
        | error e => rw [hcl] at h; cases h
        | ok pr =>
          rw [hcl] at h
          dsimp only at h
          injection h with h
          injection h with h _
          rw [← h, addChildrenSimple_localOf]
          rfl
    | difference db =>
      rw [hp] at h
      cases hb : NodeData.bodiesD pw (d.getWorldD pw).2 with
      | error e => rw [hb] at h; cases h
      | ok prb =>
        rw [hb] at h
        dsimp only at h
        cases hcl : Component.copyList (d.getWorldD pw).1 cs with
        | error e => rw [hcl] at h; cases h
        | ok pr =>
          rw [hcl] at h
          dsimp only at h
          injection h with h
          injection h with h _
          rw [← h, addChildrenSimple_localOf]
          rfl
    | intersection ib cp pop =>
      rw [hp] at h
      cases hb : NodeData.bodiesD pw (d.getWorldD pw).2 with
      | error e => rw [hb] at h; cases h
      | ok prb =>
        rw [hb] at h
        dsimp only at h
        cases hcl : Component.copyList (d.getWorldD pw).1 cs with
        | error e => rw [hcl] at h; cases h
        | ok pr =>
          rw [hcl] at h
          dsimp only at h
          injection h with h
          injection h with h _
          rw [← h, addChildrenSimple_localOf]
          rfl

theorem getPlane_localOf : ∀ (pw : Affine) (c c' : Component) (pl : Option PlaneG),
    Component.getPlane pw c = .ok (pl, c') → c'.localOf = c.localOf := by
  intro pw c c' pl h
  obtain ⟨⟨nm, lt, cb, cbb, cw, ci, pay⟩, cs⟩ := c
  cases pay with
  | shape b planar =>
    cases planar with
    | false =>
      have hred : Component.getPlane pw (Component.node
          ⟨nm, lt, cb, cbb, cw, ci, Payload.shape b false⟩ cs)
          = .ok (none, Component.node ⟨nm, lt, cb, cbb, cw, ci, Payload.shape b false⟩ cs) :=
        rfl
      rw [hred] at h
      injection h with h
      injection h with _ h
      rw [← h]
    | true =>
      have hred : Component.getPlane pw (Component.node
          ⟨nm, lt, cb, cbb, cw, ci, Payload.shape b true⟩ cs)
          = (match NodeData.bodiesD pw ⟨nm, lt, cb, cbb, cw, ci, Payload.shape b true⟩ with
             | .error e => .error e
             | .ok (bs, d1) => .ok (bs.head?.bind Body.facePlane, Component.node d1 cs)) := rfl
      rw [hred] at h
      cases hb : NodeData.bodiesD pw ⟨nm, lt, cb, cbb, cw, ci, Payload.shape b true⟩ with
      | error e => rw [hb] at h; cases h
      | ok pr =>
        rw [hb] at h
        dsimp only at h
        injection h with h
        injection h with _ h
        rw [← h]
        show pr.2.localTransform = lt
        have := bodiesD_localTransform pw ⟨nm, lt, cb, cbb, cw, ci, Payload.shape b true⟩
          pr.1 pr.2 (by rw [hb])
        simpa using this
  | union ub =>
    cases cs with
    | nil =>
      have hred : Component.getPlane pw (Component.node
          ⟨nm, lt, cb, cbb, cw, ci, Payload.union ub⟩ ComponentList.nil)
          = .ok (none, Component.node ⟨nm, lt, cb, cbb, cw, ci, Payload.union ub⟩
              ComponentList.nil) := rfl
      rw [hred] at h
      injection h with h
      injection h with _ h
      rw [← h]
    | cons ch rest =>
      have hred : Component.getPlane pw (Component.node
          ⟨nm, lt, cb, cbb, cw, ci, Payload.union ub⟩ (ComponentList.cons ch rest))
          = (match Component.getPlane
              ((NodeData.getWorldD pw ⟨nm, lt, cb, cbb, cw, ci, Payload.union ub⟩).1) ch with
             | .error e => .error e
             | .ok (pl2, ch') => .ok (pl2, Component.node
                 ⟨nm, lt, cb, cbb, cw, ci, Payload.union ub⟩ (ComponentList.cons ch' rest))) :=
        rfl
      rw [hred] at h
      cases hg : Component.getPlane
          ((NodeData.getWorldD pw ⟨nm, lt, cb, cbb, cw, ci, Payload.union ub⟩).1) ch with
      | error e => rw [hg] at h; cases h
      | ok pr =>
        rw [hg] at h
        dsimp only at h
        injection h with h
        injection h with _ h
        rw [← h]
        rfl
  | difference db =>
    cases cs with
    | nil =>
      have hred : Component.getPlane pw (Component.node
          ⟨nm, lt, cb, cbb, cw, ci, Payload.difference db⟩ ComponentList.nil)
          = .ok (none, Component.node ⟨nm, lt, cb, cbb, cw, ci, Payload.difference db⟩
              ComponentList.nil) := rfl
      rw [hred] at h
      injection h with h
      injection h with _ h
      rw [← h]
    | cons ch rest =>
      have hred : Component.getPlane pw (Component.node
          ⟨nm, lt, cb, cbb, cw, ci, Payload.difference db⟩ (ComponentList.cons ch rest))
          = (match Component.getPlane
              ((NodeData.getWorldD pw ⟨nm, lt, cb, cbb, cw, ci, Payload.difference db⟩).1) ch with
             | .error e => .error e
             | .ok (pl2, ch') => .ok (pl2, Component.node
                 ⟨nm, lt, cb, cbb, cw, ci, Payload.difference db⟩
                 (ComponentList.cons ch' rest))) := rfl
      rw [hred] at h
      cases hg : Component.getPlane
          ((NodeData.getWorldD pw ⟨nm, lt, cb, cbb, cw, ci, Payload.difference db⟩).1) ch with
      | error e => rw [hg] at h; cases h
      | ok pr =>
        rw [hg] at h
        dsimp only at h
        injection h with h
        injection h with _ h
        rw [← h]
        rfl
  | intersection ib cp pop =>
    cases pop with
    | true =>
      have hred : Component.getPlane pw (Component.node
          ⟨nm, lt, cb, cbb, cw, ci, Payload.intersection ib cp true⟩ cs)
          = .ok (cp, Component.node
              ⟨nm, lt, cb, cbb, cw, ci, Payload.intersection ib cp true⟩ cs) := rfl
      rw [hred] at h
      injection h with h
      injection h with _ h
      rw [← h]
    | false =>
      have hred : Component.getPlane pw (Component.node
          ⟨nm, lt, cb, cbb, cw, ci, Payload.intersection ib cp false⟩ cs)
          = (match Component.scanPlanes
              ((NodeData.getWorldD pw
                ⟨nm, lt, cb, cbb, cw, ci, Payload.intersection ib cp false⟩).1) cs with
             | .error e => .error e
             | .ok (pl2, cs') => .ok (pl2, Component.node
                 ⟨nm, lt, cb, cbb, cw, ci, Payload.intersection ib pl2 true⟩ cs')) := rfl
      rw [hred] at h
      cases hs : Component.scanPlanes
          ((NodeData.getWorldD pw
            ⟨nm, lt, cb, cbb, cw, ci, Payload.intersection ib cp false⟩).1) cs with
      | error e => rw [hs] at h; cases h
      | ok pr =>
        rw [hs] at h
        dsimp only at h
        injection h with h
        injection h with _ h
        rw [← h]
        rfl

theorem withLocal_localOf (c : Component) (L : Affine) : (c.withLocal L).localOf = L := by
  cases c; rfl

theorem node_localOf (d : NodeData) (cs : ComponentList) :
    (Component.node d cs).localOf = d.localTransform := rfl

theorem unionCheck_child_localOf (pw : Affine) (self child s1 c1 : Component)
    (h : Union.checkCoplanarity pw self child = .ok (s1, c1)) :
    c1.localOf = child.localOf := by
  unfold Union.checkCoplanarity at h
  cases hp : self.payloadOf with
  | union ub =>
    cases ub with
    | none =>
      rw [hp] at h; dsimp only at h
      injection h with h
      injection h with _ h
      rw [← h]
    | some b =>
      rw [hp] at h; dsimp only at h
      cases hgs : Component.getPlane pw self with
      | error e => rw [hgs] at h; cases h
      | ok prs =>
        rw [hgs] at h
        dsimp only at h
        cases hgc : Component.getPlane Affine.idA child with
        | error e => rw [hgc] at h; cases h
        | ok prc =>
          rw [hgc] at h
          dsimp only at h
          have hc1 : c1 = prc.2 := by
            cases hps : prs.1 with
            | none =>
              cases hpc : prc.1 with
              | none =>
                rw [hps, hpc] at h; dsimp only at h
                injection h with h
                injection h with _ h
                exact h.symm
              | some q => rw [hps, hpc] at h; dsimp only at h; cases h
            | some p0 =>
              cases hpc : prc.1 with
              | none => rw [hps, hpc] at h; dsimp only at h; cases h
              | some q =>
                rw [hps, hpc] at h; dsimp only at h
                by_cases hco : p0.isCoPlanarTo q = true
                · rw [if_pos hco] at h
                  injection h with h
                  injection h with _ h
                  exact h.symm
                · rw [if_neg hco] at h; cases h
          rw [hc1]
          exact getPlane_localOf Affine.idA child prc.2 prc.1 (by rw [hgc])
  | shape b pl =>
    rw [hp] at h; dsimp only at h
    injection h with h
    injection h with _ h
    rw [← h]
  | difference db =>
    rw [hp] at h; dsimp only at h
    injection h with h
    injection h with _ h
    rw [← h]
  | intersection ib cp pop =>
    rw [hp] at h; dsimp only at h
    injection h with h
    injection h with _ h
    rw [← h]

theorem differenceCheck_child_localOf (pw : Affine) (self child s1 c1 : Component)
    (h : Difference.checkCoplanarity pw self child = .ok (s1, c1)) :
    c1.localOf = child.localOf := by
  unfold Difference.checkCoplanarity at h
  cases hp : self.payloadOf with
  | difference db =>
    cases db with
    | none =>
      rw [hp] at h; dsimp only at h
      injection h with h
      injection h with _ h
      rw [← h]
    | some ts =>
      rw [hp] at h; dsimp only at h
      by_cases hts : ts.isEmpty = true
      · rw [if_pos hts] at h
        injection h with h
        injection h with _ h
        rw [← h]
      · rw [if_neg hts] at h
        cases hgs : Component.getPlane pw self with
        | error e => rw [hgs] at h; cases h
        | ok prs =>
          rw [hgs] at h
          dsimp only at h
          cases hgc : Component.getPlane Affine.idA child with
          | error e => rw [hgc] at h; cases h
          | ok prc =>
            rw [hgc] at h
            dsimp only at h
            have hc1 : c1 = prc.2 := by
              cases hps : prs.1 with
              | none =>
                cases hpc : prc.1 with
                | none =>
                  rw [hps, hpc] at h; dsimp only at h
                  injection h with h
                  injection h with _ h
                  exact h.symm
                | some q => rw [hps, hpc] at h; dsimp only at h; cases h
              | some p0 =>
                cases hpc : prc.1 with
                | none =>
                  rw [hps, hpc] at h; dsimp only at h
                  injection h with h
                  injection h with _ h
                  exact h.symm
                | some q =>
                  rw [hps, hpc] at h; dsimp only at h
                  by_cases hco : p0.isCoPlanarTo q = true
                  · rw [if_pos hco] at h
                    injection h with h
                    injection h with _ h
                    exact h.symm
                  · rw [if_neg hco] at h; cases h
            rw [hc1]
            exact getPlane_localOf Affine.idA child prc.2 prc.1 (by rw [hgc])
  | shape b pl =>
    rw [hp] at h; dsimp only at h
    injection h with h
    injection h with _ h
    rw [← h]
  | union ub =>
    rw [hp] at h; dsimp only at h
    injection h with h
    injection h with _ h
    rw [← h]
  | intersection ib cp pop =>
    rw [hp] at h; dsimp only at h
    injection h with h
    injection h with _ h
    rw [← h]

theorem intersectionCheck_child_localOf (self child : Component) (plane : Option PlaneG)
    (pl1 : Option PlaneG) (c1 : Component)
    (h : Intersection.checkCoplanarity self child plane = .ok (pl1, c1)) :
    c1.localOf = child.localOf := by
  unfold Intersection.checkCoplanarity at h
  cases hp : self.payloadOf with
  | intersection ib cp pop =>
    cases ib with
    | none =>
      rw [hp] at h; dsimp only at h
      exact getPlane_localOf Affine.idA child c1 pl1 h
    | some bs =>
      rw [hp] at h; dsimp only at h
      by_cases hbs : bs.isEmpty = true
      · rw [if_pos hbs] at h
        exact getPlane_localOf Affine.idA child c1 pl1 h
      · rw [if_neg hbs] at h
        cases hgc : Component.getPlane Affine.idA child with
        | error e => rw [hgc] at h; cases h
        | ok prc =>
          rw [hgc] at h
          dsimp only at h
          have hc1 : c1 = prc.2 := by
            cases hpl : plane with
            | some p0 =>
              cases hpc : prc.1 with
              | some q =>
                rw [hpl, hpc] at h; dsimp only at h
                by_cases hco : p0.isCoPlanarTo q = true
                · rw [if_pos hco] at h
                  injection h with h
                  injection h with _ h
                  exact h.symm
                · rw [if_neg hco] at h; cases h
              | none =>
                rw [hpl, hpc] at h; dsimp only at h
                injection h with h
                injection h with _ h
                exact h.symm
            | none =>
              cases hpc : prc.1 with
              | some q =>
                rw [hpl, hpc] at h; dsimp only at h
                injection h with h
                injection h with _ h
                exact h.symm
              | none =>
                rw [hpl, hpc] at h; dsimp only at h
                injection h with h
                injection h with _ h
                exact h.symm
          rw [hc1]
          exact getPlane_localOf Affine.idA child prc.2 prc.1 (by rw [hgc])
  | shape b pl => rw [hp] at h; cases h
  | union ub => rw [hp] at h; cases h
  | difference db => rw [hp] at h; cases h

theorem unionAdd_child_localOf (pw : Affine) (s s' : Unit) (self child self' child' : Component)
    (h : Union.processChildAdd pw s self child = .ok (s', self', child')) :
    child'.localOf = child.localOf := by
  unfold Union.processChildAdd at h
  cases hc : Union.checkCoplanarity pw self child with
  | error e => rw [hc] at h; cases h
  | ok pr =>
    rw [hc] at h; dsimp only at h
    have hloc : pr.2.localOf = child.localOf :=
      unionCheck_child_localOf pw self child pr.1 pr.2 (by rw [hc])
    cases hb : pr.2.dataOf.bodiesD Affine.idA with
    | error e => rw [hb] at h; cases h
    | ok prb =>
      rw [hb] at h; dsimp only at h
      have hbl : prb.2.localTransform = pr.2.dataOf.localTransform :=
        bodiesD_localTransform Affine.idA pr.2.dataOf prb.1 prb.2 (by rw [hb])
      cases hsp : pr.1.payloadOf with
      | union ub =>
        cases ub with
        | some t =>
          rw [hsp] at h; dsimp only at h
          injection h with h
          injection h with _ h
          injection h with _ h
          rw [← h, node_localOf, hbl]
          exact hloc
        | none =>
          rw [hsp] at h; dsimp only at h
          cases hbs : prb.1 with
          | nil =>
            rw [hbs] at h; dsimp only at h
            injection h with h
            injection h with _ h
            injection h with _ h
            rw [← h, node_localOf, hbl]
            exact hloc
          | cons b bs => rw [hbs] at h; cases h
      | shape b pl => rw [hsp] at h; cases h
      | difference db => rw [hsp] at h; cases h
      | intersection ib cp pop => rw [hsp] at h; cases h

theorem differenceAdd_child_localOf (pw : Affine) (s s' : Unit)
    (self child self' child' : Component)
    (h : Difference.processChildAdd pw s self child = .ok (s', self', child')) :
    child'.localOf = child.localOf := by
  unfold Difference.processChildAdd at h
  cases hc : Difference.checkCoplanarity pw self child with
  | error e => rw [hc] at h; cases h
  | ok pr =>
    rw [hc] at h; dsimp only at h
    have hloc : pr.2.localOf = child.localOf :=
      differenceCheck_child_localOf pw self child pr.1 pr.2 (by rw [hc])
    cases hsp : pr.1.payloadOf with
    | difference db =>
      cases db with
      | none => rw [hsp] at h; cases h
      | some ts =>
        cases ts with
        | nil =>
          rw [hsp] at h; dsimp only at h
          injection h with h
          injection h with _ h
          injection h with _ h
          rw [← h]
          exact hloc
        | cons t ts =>
          rw [hsp] at h; dsimp only at h
          cases hb : pr.2.dataOf.bodiesD Affine.idA with
          | error e => rw [hb] at h; cases h
          | ok prb =>
            rw [hb] at h; dsimp only at h
            have hbl : prb.2.localTransform = pr.2.dataOf.localTransform :=
              bodiesD_localTransform Affine.idA pr.2.dataOf prb.1 prb.2 (by rw [hb])
            injection h with h
            injection h with _ h
            injection h with _ h
            rw [← h, node_localOf, hbl]
            exact hloc
    | shape b pl => rw [hsp] at h; cases h
    | union ub => rw [hsp] at h; cases h
    | intersection ib cp pop => rw [hsp] at h; cases h

theorem intersectionAdd_child_localOf (plane : Option PlaneG) (plane' : Option PlaneG)
    (self child self' child' : Component)
    (h : Intersection.processChildAdd plane self child = .ok (plane', self', child')) :
    child'.localOf = child.localOf := by
  unfold Intersection.processChildAdd at h
  cases hc : Intersection.checkCoplanarity self child plane with
  | error e => rw [hc] at h; cases h
  | ok pr =>
    rw [hc] at h; dsimp only at h
    have hloc : pr.2.localOf = child.localOf :=
      intersectionCheck_child_localOf self child plane pr.1 pr.2 (by rw [hc])
    cases hsp : self.payloadOf with
    | intersection ib cp pop =>
      cases ib with
      | none => rw [hsp] at h; cases h
      | some ts =>
        cases ts with
        | nil =>
          rw [hsp] at h; dsimp only at h
          injection h with h
          injection h with _ h
          injection h with _ h
          rw [← h]
          exact hloc
        | cons t ts =>
          rw [hsp] at h; dsimp only at h
          cases hb : pr.2.dataOf.bodiesD Affine.idA with
          | error e => rw [hb] at h; cases h
          | ok prb =>
            rw [hb] at h; dsimp only at h
            have hbl : prb.2.localTransform = pr.2.dataOf.localTransform :=
              bodiesD_localTransform Affine.idA pr.2.dataOf prb.1 prb.2 (by rw [hb])
            injection h with h
            injection h with _ h
            injection h with _ h
            rw [← h, node_localOf, hbl]
            exact hloc
    | shape b pl => rw [hsp] at h; cases h
    | union ub => rw [hsp] at h; cases h
    | difference db => rw [hsp] at h; cases h

theorem addChildren_single {σ : Type}
    (g : σ → Component → Component → Except Err (σ × Component × Component))
    (pw apw : Affine) (s : σ) (self x self' : Component)
    (h : Component.addChildren (some g) pw s self [⟨x, some apw⟩] = .ok self') :
    ∃ k src s2 sf2 ch2,
      Component.copyC apw x = .ok (k, src) ∧
      g s (Component.node (self.dataOf.inverseTransformD pw).2 self.childrenOf)
        (Component.resetCache
          (k.withLocal ((self.dataOf.inverseTransformD pw).1.comp k.localOf)))
        = .ok (s2, sf2, ch2) ∧
      self' = Component.resetCache (sf2.appendChild ch2) := by
  have hred : Component.addChildren (some g) pw s self [⟨x, some apw⟩] =
      match (Component.copyC apw x).map Prod.fst with
      | .error e => .error e
      | .ok ch =>
        match g s (Component.node (self.dataOf.inverseTransformD pw).2 self.childrenOf)
            (Component.resetCache
              (ch.withLocal ((self.dataOf.inverseTransformD pw).1.comp ch.localOf))) with
        | .error e => .error e
        | .ok (s2, sf2, ch2) => .ok (Component.resetCache (sf2.appendChild ch2)) := rfl
  rw [hred] at h
  cases hk : Component.copyC apw x with
  | error e => rw [hk] at h; cases h
  | ok pr =>
    rw [hk] at h
    dsimp only [Except.map] at h
    cases hg : g s (Component.node (self.dataOf.inverseTransformD pw).2 self.childrenOf)
        (Component.resetCache
          (pr.1.withLocal ((self.dataOf.inverseTransformD pw).1.comp pr.1.localOf))) with
    | error e => rw [hg] at h; cases h
    | ok trip =>
      rw [hg] at h
      dsimp only at h
      injection h with h
      exact ⟨pr.1, pr.2, trip.1, trip.2.1, trip.2.2,
        congrArg Except.ok rfl, hg.trans (congrArg Except.ok rfl), h.symm⟩

theorem getPlane_intersection_data (pw : Affine) (nm : Option String) (lt : Affine)
    (cb : Option (List Body)) (cbb : Option (Vec3 × Vec3)) (cw ci : Option Affine)
    (ib : Option (List Body)) (cp : Option PlaneG) (pop : Bool) (cs : ComponentList)
    (pl : Option PlaneG) (c' : Component)
    (h : Component.getPlane pw
        (Component.node ⟨nm, lt, cb, cbb, cw, ci, .intersection ib cp pop⟩ cs) = .ok (pl, c')) :
    ∃ cp' pop' cs',
      c' = Component.node ⟨nm, lt, cb, cbb, cw, ci, .intersection ib cp' pop'⟩ cs' := by
  cases pop with
  | true =>
    have hred : Component.getPlane pw
        (Component.node ⟨nm, lt, cb, cbb, cw, ci, .intersection ib cp true⟩ cs) =
        .ok (cp, Component.node ⟨nm, lt, cb, cbb, cw, ci, .intersection ib cp true⟩ cs) := rfl
    rw [hred] at h
    injection h with h
    injection h with _ h
    exact ⟨cp, true, cs, h.symm⟩
  | false =>
    have hred : Component.getPlane pw
        (Component.node ⟨nm, lt, cb, cbb, cw, ci, .intersection ib cp false⟩ cs) =
        match Component.scanPlanes
            (((⟨nm, lt, cb, cbb, cw, ci, .intersection ib cp false⟩ : NodeData).getWorldD pw).1)
            cs with
        | .error e => .error e
        | .ok (pl2, cs') =>
          .ok (pl2, Component.node ⟨nm, lt, cb, cbb, cw, ci, .intersection ib pl2 true⟩ cs') := rfl
    rw [hred] at h
    cases hs : Component.scanPlanes
        (((⟨nm, lt, cb, cbb, cw, ci, .intersection ib cp false⟩ : NodeData).getWorldD pw).1)
        cs with
    | error e => rw [hs] at h; cases h
    | ok pr =>
      rw [hs] at h
      dsimp only at h
      injection h with h
      injection h with _ h
      exact ⟨pr.1, true, pr.2, h.symm⟩

theorem attach_core {σ : Type}
    (g : σ → Component → Component → Except Err (σ × Component × Component))
    (hpres : ∀ s a b s2 a2 b2, g s a b = .ok (s2, a2, b2) → b2.localOf = b.localOf)
    (pw apw : Affine) (s : σ) (selfB x self' : Component)
    (hBinv : (selfB.dataOf.inverseTransformD pw).1 = (pw.comp selfB.localOf).invA)
    (hxw : x.dataOf.worldCacheOK apw = true)
    (h : Component.addChildren (some g) pw s selfB [⟨x, some apw⟩] = .ok self') :
    ∃ k src L,
      Component.copyC apw x = .ok (k, src) ∧
      src.eraseCaches = x.eraseCaches ∧
      (∀ q, Component.trueWorldAt apw src q = Component.trueWorldAt apw x q) ∧
      self'.childrenOf.lastC = some L ∧
      L.localOf = (pw.comp selfB.localOf).invA.comp (apw.comp x.localOf) := by
  obtain ⟨k, src, s2, sf2, ch2, hk, hg, hself⟩ :=
    addChildren_single g pw apw s selfB x self' h
  have herase := copy_eraseCaches apw x k src hk
  refine ⟨k, src, Component.resetCache ch2, hk, herase, ?_, ?_, ?_⟩
  · intro q
    calc Component.trueWorldAt apw src q
        = Component.trueWorldAt apw src.eraseCaches q := (trueWorldAt_erase q apw src).symm
      _ = Component.trueWorldAt apw x.eraseCaches q := by rw [herase]
      _ = Component.trueWorldAt apw x q := trueWorldAt_erase q apw x
  · cases sf2 with
    | node d2 cs2 =>
      rw [hself]
      show ((Component.node d2 (cs2.append ch2)).resetCache).childrenOf.lastC = _
      rw [resetCache_childrenOf, lastC_resetCacheL, lastC_append]
      rfl
  · have hch := hpres s _ _ s2 sf2 ch2 hg
    rw [resetCache_localOf, hch, resetCache_localOf, withLocal_localOf, hBinv]
    congr 1
    rw [copyC_localOf apw x k src hk, getWorldD_val apw x.dataOf hxw]
    rfl

/-- C2: a node passed to a composite's `add` while it already has a parent
(ancestor world `apw`) is copied, the original is unchanged apart from cache
population (same tree after erasing caches, same true world transform at
every path), and the attached child — the last child of the result — gets
local transform `inverse(composite world) ∘ (prior child world)`, so that
composing the composite's world back on gives the child its prior world
pose. -/
theorem copy_on_attach (op : CsgOp) (pw apw : Affine) (self x self' : Component)
    (hkind : self.payloadOf.kindTag = op.tagC)
    (hinv : self.dataOf.inverseCacheOK pw = true)
    (hxw : x.dataOf.worldCacheOK apw = true)
    (hdet : (pw.comp self.localOf).det ≠ 0)
    (h : op.addC pw self [⟨x, some apw⟩] = .ok self') :
    ∃ k src L,
      Component.copyC apw x = .ok (k, src) ∧
      src.eraseCaches = x.eraseCaches ∧
      (∀ q, Component.trueWorldAt apw src q = Component.trueWorldAt apw x q) ∧
      self'.childrenOf.lastC = some L ∧
      L.localOf = (pw.comp self.localOf).invA.comp (apw.comp x.localOf) ∧
      (pw.comp self.localOf).comp L.localOf = apw.comp x.localOf := by
  cases op with
  | unionOp =>
    have hBinv : (self.dataOf.inverseTransformD pw).1 = (pw.comp self.localOf).invA :=
      inverseTransformD_val pw self.dataOf hinv
    have h' : Component.addChildren (some (Union.processChildAdd pw)) pw () self
        [⟨x, some apw⟩] = .ok self' := h
    obtain ⟨k, src, L, hk, he, hw, hl, hloc⟩ :=
      attach_core (Union.processChildAdd pw)
        (fun s a b s2 a2 b2 hh => unionAdd_child_localOf pw s s2 a b a2 b2 hh)
        pw apw () self x self' hBinv hxw h'
    exact ⟨k, src, L, hk, he, hw, hl, hloc, by
      rw [hloc, ← Affine.comp_assoc, Affine.comp_invA _ hdet, Affine.idA_comp]⟩
  | differenceOp =>
    have hBinv : (self.dataOf.inverseTransformD pw).1 = (pw.comp self.localOf).invA :=
      inverseTransformD_val pw self.dataOf hinv
    have h' : Component.addChildren (some (Difference.processChildAdd pw)) pw () self
        [⟨x, some apw⟩] = .ok self' := h
    obtain ⟨k, src, L, hk, he, hw, hl, hloc⟩ :=
      attach_core (Difference.processChildAdd pw)
        (fun s a b s2 a2 b2 hh => differenceAdd_child_localOf pw s s2 a b a2 b2 hh)
        pw apw () self x self' hBinv hxw h'
    exact ⟨k, src, L, hk, he, hw, hl, hloc, by
      rw [hloc, ← Affine.comp_assoc, Affine.comp_invA _ hdet, Affine.idA_comp]⟩
  | intersectionOp =>
    cases self with
    | node d cs =>
      obtain ⟨nm, lt, cb, cbb, cw, ci, pay⟩ := d
      cases pay with
      | shape b pl =>
        simp [Component.payloadOf, Component.dataOf, Payload.kindTag, CsgOp.tagC] at hkind
      | union ub =>
        simp [Component.payloadOf, Component.dataOf, Payload.kindTag, CsgOp.tagC] at hkind
      | difference db =>
        simp [Component.payloadOf, Component.dataOf, Payload.kindTag, CsgOp.tagC] at hkind
      | intersection ib cp pop =>
        have h' : Intersection.addI pw
            (Component.node ⟨nm, lt, cb, cbb, cw, ci, .intersection ib cp pop⟩ cs)
            [⟨x, some apw⟩] = .ok self' := h
        unfold Intersection.addI at h'
        cases hgp : Component.getPlane pw
            (Component.node ⟨nm, lt, cb, cbb, cw, ci, .intersection ib cp pop⟩ cs) with
        | error e => rw [hgp] at h'; cases h'
        | ok prg =>
          rw [hgp] at h'
          dsimp only at h'
          obtain ⟨cp', pop', cs', hstruct⟩ :=
            getPlane_intersection_data pw nm lt cb cbb cw ci ib cp pop cs prg.1 prg.2
              (by rw [hgp])
          have hBok : prg.2.dataOf.inverseCacheOK pw = true := by
            rw [hstruct]
            have heq : NodeData.inverseCacheOK pw
                ⟨nm, lt, cb, cbb, cw, ci, .intersection ib cp' pop'⟩ =
                NodeData.inverseCacheOK pw
                ⟨nm, lt, cb, cbb, cw, ci, .intersection ib cp pop⟩ := rfl
            show NodeData.inverseCacheOK pw
                ⟨nm, lt, cb, cbb, cw, ci, .intersection ib cp' pop'⟩ = true
            rw [heq]
            exact hinv
          have hBinv : (prg.2.dataOf.inverseTransformD pw).1 =
              (pw.comp prg.2.localOf).invA :=
            inverseTransformD_val pw prg.2.dataOf hBok
          obtain ⟨k, src, L, hk, he, hw, hl, hloc⟩ :=
            attach_core Intersection.processChildAdd
              (fun s a b s2 a2 b2 hh => intersectionAdd_child_localOf s s2 a b a2 b2 hh)
              pw apw prg.1 prg.2 x self' hBinv hxw h'
          have hll : prg.2.localOf = lt := by rw [hstruct]; rfl
          rw [hll] at hloc
          have hdet2 : (pw.comp lt).det ≠ 0 := hdet
          exact ⟨k, src, L, hk, he, hw, hl, hloc, by
            show (pw.comp lt).comp L.localOf = apw.comp x.localOf
            rw [hloc, ← Affine.comp_assoc, Affine.comp_invA _ hdet2, Affine.idA_comp]⟩

/-- Concrete run of `copy_on_attach`: `Union(Box(1,1,1)).add(box-with-a-parent)`
with all caches empty and identity ambient transforms. -/
theorem copy_on_attach_witness :
    ∃ k src L,
      Component.copyC Affine.idA boxW = .ok (k, src) ∧
      src.eraseCaches = boxW.eraseCaches ∧
      (∀ q, Component.trueWorldAt Affine.idA src q = Component.trueWorldAt Affine.idA boxW q) ∧
      c2AddW.childrenOf.lastC = some L ∧
      L.localOf = (Affine.idA.comp unionBoxW.localOf).invA.comp
        (Affine.idA.comp boxW.localOf) ∧
      (Affine.idA.comp unionBoxW.localOf).comp L.localOf = Affine.idA.comp boxW.localOf :=
  copy_on_attach .unionOp Affine.idA Affine.idA unionBoxW boxW c2AddW
    (by decide) (by decide) (by decide) (by decide) (by decide)

theorem attachClones_trueWorld (pw w : Affine) (d : NodeData) (cs : ComponentList)
    (bd : NodeData) (copies : List Component)
    (hbdlt : bd.localTransform = w)
    (hbdcw : bd.cachedWorld = none) (hbdci : bd.cachedInverse = none)
    (hw : w = pw.comp d.localTransform)
    (hdet : (pw.comp d.localTransform).det ≠ 0)
    (hlist : ∀ i p,
      (copies.get? i).bind (fun kc => Component.trueWorldAt Affine.idA kc p) =
      (cs.get? i).bind (fun cc => Component.trueWorldAt w cc p)) :
    ∀ q, Component.trueWorldAt Affine.idA
        (Component.addChildrenSimple Affine.idA (.node bd .nil) copies) q =
      Component.trueWorldAt pw (.node d cs) q := by
  obtain ⟨d', hstrip, heq⟩ := addChildrenSimple_spec Affine.idA bd .nil copies
  have hdl : d'.localTransform = bd.localTransform := by
    have := congrArg NodeData.localTransform hstrip
    simpa [NodeData.stripCaches] using this
  have hbinvOK : bd.inverseCacheOK Affine.idA = true := by
    simp [NodeData.inverseCacheOK, NodeData.worldCacheOK, hbdcw, hbdci]
  have hinv1 : (bd.inverseTransformD Affine.idA).1 = (Affine.idA.comp bd.localTransform).invA :=
    inverseTransformD_val Affine.idA bd hbinvOK
  have hdet2 : (Affine.idA.comp w).det ≠ 0 := by
    rw [Affine.idA_comp, hw]; exact hdet
  intro q
  rw [heq, trueWorldAt_resetCache]
  cases q with
  | nil =>
    rw [trueWorldAt_nil, trueWorldAt_nil]
    show some (Affine.idA.comp d'.localTransform) = some (pw.comp d.localTransform)
    rw [hdl, hbdlt, Affine.idA_comp, hw]
  | cons i p =>
    simp only [Component.trueWorldAt]
    have hLget : (ComponentList.nil.appendAll (copies.map fun kc =>
        Component.resetCache (kc.withLocal
          ((bd.inverseTransformD Affine.idA).1.comp kc.localOf)))).get? i =
        (copies.map fun kc =>
          Component.resetCache (kc.withLocal
            ((bd.inverseTransformD Affine.idA).1.comp kc.localOf))).get? i := by
      rw [get?_toListC, toListC_appendAll]
      rfl
    rw [hLget, List.get?_map]
    have key : ∀ kc : Component,
        Component.trueWorldAt (Affine.idA.comp d'.localTransform)
          (Component.resetCache (kc.withLocal
            ((bd.inverseTransformD Affine.idA).1.comp kc.localOf))) p =
        Component.trueWorldAt Affine.idA kc p := by
      intro kc
      rw [trueWorldAt_resetCache]
      apply trueWorldAt_withLocal
      rw [hinv1, hdl, hbdlt, ← Affine.comp_assoc, Affine.comp_invA _ hdet2, Affine.idA_comp]
    have hl := hlist i p
    calc ((copies.get? i).map fun kc =>
          Component.resetCache (kc.withLocal
            ((bd.inverseTransformD Affine.idA).1.comp kc.localOf))).bind
          (fun ch => Component.trueWorldAt (Affine.idA.comp d'.localTransform) ch p)
        = (copies.get? i).bind (fun kc => Component.trueWorldAt Affine.idA kc p) := by
          cases copies.get? i with
          | none => rfl
          | some kc =>
            simp only [Option.map_some', Option.some_bind]
            exact key kc
      _ = (cs.get? i).bind (fun cc => Component.trueWorldAt w cc p) := hl
      _ = (cs.get? i).bind (fun cc => Component.trueWorldAt (pw.comp d.localTransform) cc p) := by
          rw [← hw]

theorem getWorldD_payload (pw : Affine) (d : NodeData) :
    ((d.getWorldD pw).2).payload = d.payload := by
  unfold NodeData.getWorldD
  cases d.cachedWorld <;> rfl

mutual
theorem copy_trueWorld : ∀ (pw : Affine) (c k src : Component),
    Component.cacheOK pw c = true →
    Component.worldsInvertible pw c = true →
    Component.wellFormed c = true →
    Component.copyC pw c = .ok (k, src) →
    ∀ q, Component.trueWorldAt Affine.idA k q = Component.trueWorldAt pw c q
  | pw, .node d cs, k, src, hok, hwinv, hwf, h => by
    simp only [Component.copyC] at h
    have hwcOK : d.worldCacheOK pw = true := cacheOK_worldCacheOK pw d cs hok
    have hw : (d.getWorldD pw).1 = pw.comp d.localTransform := getWorldD_val pw d hwcOK
    have hokl : cs.cacheOKL ((d.getWorldD pw).1) = true := by
      rw [hw]; exact cacheOK_children pw d cs hok
    have hwinv2 := hwinv
    simp only [Component.worldsInvertible, Bool.and_eq_true, decide_eq_true_eq] at hwinv2
    have hinvl : cs.worldsInvertibleL ((d.getWorldD pw).1) = true := by
      rw [hw]; exact hwinv2.2
    have hwf2 := hwf
    simp only [Component.wellFormed, Bool.and_eq_true] at hwf2
    cases hp : ((d.getWorldD pw).2).payload with
    | shape b pl =>
      rw [hp] at h
      injection h with h
      injection h with hk hsrc
      have hdp : d.payload = .shape b pl := by rw [← getWorldD_payload pw d, hp]
      have hcs : cs = .nil := by
        have := hwf2.1
        rw [hdp] at this
        exact of_decide_eq_true this
      subst hcs
      intro q
      rw [← hk]
      cases q with
      | nil =>
        rw [trueWorldAt_nil, trueWorldAt_nil]
        show some (Affine.idA.comp (d.getWorldD pw).1) = some (pw.comp d.localTransform)
        rw [Affine.idA_comp, hw]
      | cons i p => rfl
    | union ub =>
      cases ub with
      | none => rw [hp] at h; cases h
      | some b =>
        rw [hp] at h
        cases hcl : Component.copyList ((d.getWorldD pw).1) cs with
        | error e => rw [hcl] at h; cases h
        | ok pr =>
          rw [hcl] at h
          dsimp only at h
          injection h with h
          injection h with hk hsrc
          intro q
          rw [← hk]
          exact attachClones_trueWorld pw ((d.getWorldD pw).1) d cs
            ⟨((d.getWorldD pw).2).name, (d.getWorldD pw).1, none, none, none, none,
              .union (some b)⟩ pr.1 rfl rfl rfl hw hwinv2.1
            (fun i p => copyList_trueWorld ((d.getWorldD pw).1) cs pr.1 pr.2
              hokl hinvl hwf2.2 (by rw [hcl]) i p) q
    | difference db =>
      rw [hp] at h
      cases hbd : NodeData.bodiesD pw ((d.getWorldD pw).2) with
      | error e => rw [hbd] at h; cases h
      | ok prb =>
        rw [hbd] at h
        dsimp only at h
        cases hcl : Component.copyList ((d.getWorldD pw).1) cs with
        | error e => rw [hcl] at h; cases h
        | ok pr =>
          rw [hcl] at h
          dsimp only at h
          injection h with h
          injection h with hk hsrc
          intro q
          rw [← hk]
          exact attachClones_trueWorld pw ((d.getWorldD pw).1) d cs
            ⟨prb.2.name, (d.getWorldD pw).1, none, none, none, none,
              .difference (some prb.1)⟩ pr.1 rfl rfl rfl hw hwinv2.1
            (fun i p => copyList_trueWorld ((d.getWorldD pw).1) cs pr.1 pr.2
              hokl hinvl hwf2.2 (by rw [hcl]) i p) q
    | intersection ib cp pop =>
      rw [hp] at h
      cases hbd : NodeData.bodiesD pw ((d.getWorldD pw).2) with
      | error e => rw [hbd] at h; cases h
      | ok prb =>
        rw [hbd] at h
        dsimp only at h
        cases hcl : Component.copyList ((d.getWorldD pw).1) cs with
        | error e => rw [hcl] at h; cases h
        | ok pr =>
          rw [hcl] at h
          dsimp only at h
          injection h with h
          injection h with hk hsrc
          intro q
          rw [← hk]
          exact attachClones_trueWorld pw ((d.getWorldD pw).1) d cs
            ⟨prb.2.name, (d.getWorldD pw).1, none, none, none, none,
              .intersection (some prb.1) none false⟩ pr.1 rfl rfl rfl hw hwinv2.1
            (fun i p => copyList_trueWorld ((d.getWorldD pw).1) cs pr.1 pr.2
              hokl hinvl hwf2.2 (by rw [hcl]) i p) q

theorem copyList_trueWorld : ∀ (w : Affine) (cs : ComponentList) (ks : List Component)
    (cs1 : ComponentList),
    ComponentList.cacheOKL w cs = true →
    ComponentList.worldsInvertibleL w cs = true →
    ComponentList.wellFormedL cs = true →
    Component.copyList w cs = .ok (ks, cs1) →
    ∀ i p, (ks.get? i).bind (fun kc => Component.trueWorldAt Affine.idA kc p) =
      (cs.get? i).bind (fun cc => Component.trueWorldAt w cc p)
  | w, .nil, ks, cs1, _, _, _, h => by
    simp only [Component.copyList] at h
    injection h with h
    injection h with hks hcs1
    intro i p
    rw [← hks]
    rfl
  | w, .cons c cs, ks, cs1, hok, hinv, hwf, h => by
    simp only [Component.copyList] at h
    simp only [ComponentList.cacheOKL, Bool.and_eq_true] at hok
    simp only [ComponentList.worldsInvertibleL, Bool.and_eq_true] at hinv
    simp only [ComponentList.wellFormedL, Bool.and_eq_true] at hwf
    cases hc : Component.copyC w c with
    | error e => rw [hc] at h; cases h
    | ok prc =>
      rw [hc] at h
      dsimp only at h
      cases hcl : Component.copyList w cs with
      | error e => rw [hcl] at h; cases h
      | ok prl =>
        rw [hcl] at h
        dsimp only at h
        injection h with h
        injection h with hks hcs1
        intro i p
        rw [← hks]
        cases i with
        | zero =>
          show Component.trueWorldAt Affine.idA prc.1 p = Component.trueWorldAt w c p
          exact copy_trueWorld w c prc.1 prc.2 hok.1 hinv.1 hwf.1 (by rw [hc]) p
        | succ j =>
          show (prl.1.get? j).bind (fun kc => Component.trueWorldAt Affine.idA kc p) =
            (cs.get? j).bind (fun cc => Component.trueWorldAt w cc p)
          exact copyList_trueWorld w cs prl.1 prl.2 hok.2 hinv.2 hwf.2 (by rw [hcl]) j p
end

theorem payload_kindTag_stripCaches (d : NodeData) :
    d.stripCaches.payload.kindTag = d.payload.kindTag := by
  unfold NodeData.stripCaches
  cases d.payload <;> rfl

theorem resetCache_kindTag (c : Component) :
    c.resetCache.payloadOf.kindTag = c.payloadOf.kindTag := by
  cases c with
  | node d cs =>
    show (match d.payload with
      | .intersection ib _ _ => Payload.intersection ib none false
      | q => q).kindTag = d.payload.kindTag
    cases d.payload <;> rfl

theorem addChildrenSimple_kindTag : ∀ (pw : Affine) (self : Component) (ks : List Component),
    (Component.addChildrenSimple pw self ks).payloadOf.kindTag = self.payloadOf.kindTag
  | pw, .node d cs, [] => resetCache_kindTag (.node d cs)
  | pw, .node d cs, k :: ks => by
    show (Component.addChildrenSimple pw
      ((Component.node (d.inverseTransformD pw).2 cs).appendChild
        (Component.resetCache
          (k.withLocal ((d.inverseTransformD pw).1.comp k.localOf)))) ks).payloadOf.kindTag = _
    rw [addChildrenSimple_kindTag]
    show ((d.inverseTransformD pw).2).payload.kindTag = d.payload.kindTag
    rw [← payload_kindTag_stripCaches ((d.inverseTransformD pw).2),
      stripCaches_inverseTransformD, payload_kindTag_stripCaches]


theorem addChildrenSimple_allCleared (pw : Affine) (self : Component) (ks : List Component) :
    (Component.addChildrenSimple pw self ks).allCleared = true := by
  cases self with
  | node d cs =>
    obtain ⟨d', _, heq⟩ := addChildrenSimple_spec pw d cs ks
    rw [heq]
    exact resetCache_allCleared _

theorem copy_kindTag : ∀ (pw : Affine) (c k src : Component),
    Component.copyC pw c = .ok (k, src) → k.payloadOf.kindTag = c.payloadOf.kindTag
  | pw, .node d cs, k, src, h => by
    simp only [Component.copyC] at h
    have hdp := getWorldD_payload pw d
    cases hp : ((d.getWorldD pw).2).payload with
    | shape b pl =>
      rw [hp] at h
      injection h with h
      injection h with hk _
      rw [← hk]
      show (Payload.shape b pl).kindTag = d.payload.kindTag
      rw [← hdp, hp]
    | union ub =>
      cases ub with
      | none => rw [hp] at h; cases h
      | some b =>
        rw [hp] at h
        cases hcl : Component.copyList ((d.getWorldD pw).1) cs with
        | error e => rw [hcl] at h; cases h
        | ok pr =>
          rw [hcl] at h
          dsimp only at h
          injection h with h
          injection h with hk _
          rw [← hk, addChildrenSimple_kindTag]
          show (Payload.union (some b)).kindTag = d.payload.kindTag
          rw [← hdp, hp]
    | difference db =>
      rw [hp] at h
      cases hbd : NodeData.bodiesD pw ((d.getWorldD pw).2) with
      | error e => rw [hbd] at h; cases h
      | ok prb =>
        rw [hbd] at h
        dsimp only at h
        cases hcl : Component.copyList ((d.getWorldD pw).1) cs with
        | error e => rw [hcl] at h; cases h
        | ok pr =>
          rw [hcl] at h
          dsimp only at h
          injection h with h
          injection h with hk _
          rw [← hk, addChildrenSimple_kindTag]
          show (Payload.difference (some prb.1)).kindTag = d.payload.kindTag
          rw [← hdp, hp]
          rfl
    | intersection ib cp pop =>
      rw [hp] at h
      cases hbd : NodeData.bodiesD pw ((d.getWorldD pw).2) with
      | error e => rw [hbd] at h; cases h
      | ok prb =>
        rw [hbd] at h
        dsimp only at h
        cases hcl : Component.copyList ((d.getWorldD pw).1) cs with
        | error e => rw [hcl] at h; cases h
        | ok pr =>
          rw [hcl] at h
          dsimp only at h
          injection h with h
          injection h with hk _
          rw [← hk, addChildrenSimple_kindTag]
          show (Payload.intersection (some prb.1) none false).kindTag = d.payload.kindTag
          rw [← hdp, hp]
          rfl

theorem copy_allCleared : ∀ (pw : Affine) (c k src : Component),
    Component.copyC pw c = .ok (k, src) → k.allCleared = true
  | pw, .node d cs, k, src, h => by
    simp only [Component.copyC] at h
    cases hp : ((d.getWorldD pw).2).payload with
    | shape b pl =>
      rw [hp] at h
      injection h with h
      injection h with hk _
      rw [← hk]
      rfl
    | union ub =>
      cases ub with
      | none => rw [hp] at h; cases h
      | some b =>
        rw [hp] at h
        cases hcl : Component.copyList ((d.getWorldD pw).1) cs with
        | error e => rw [hcl] at h; cases h
        | ok pr =>
          rw [hcl] at h
          dsimp only at h
          injection h with h
          injection h with hk _
          rw [← hk]
          exact addChildrenSimple_allCleared _ _ _
    | difference db =>
      rw [hp] at h
      cases hbd : NodeData.bodiesD pw ((d.getWorldD pw).2) with
      | error e => rw [hbd] at h; cases h
      | ok prb =>
        rw [hbd] at h
        dsimp only at h
        cases hcl : Component.copyList ((d.getWorldD pw).1) cs with
        | error e => rw [hcl] at h; cases h
        | ok pr =>
          rw [hcl] at h
          dsimp only at h
          injection h with h
          injection h with hk _
          rw [← hk]
          exact addChildrenSimple_allCleared _ _ _
    | intersection ib cp pop =>
      rw [hp] at h
      cases hbd : NodeData.bodiesD pw ((d.getWorldD pw).2) with
      | error e => rw [hbd] at h; cases h
      | ok prb =>
        rw [hbd] at h
        dsimp only at h
        cases hcl : Component.copyList ((d.getWorldD pw).1) cs with
        | error e => rw [hcl] at h; cases h
        | ok pr =>
          rw [hcl] at h
          dsimp only at h
          injection h with h
          injection h with hk _
          rw [← hk]
          exact addChildrenSimple_allCleared _ _ _

/-- C9 counterexample: `copy()` modifies the source — `_get_world_transform()`
populates the source's world-transform cache, so the source as the call
leaves it differs from the original node. -/
theorem copy_modifies_source :
    Component.copyC Affine.idA boxW = .ok c9BoxCopyW ∧
    boxW.dataOf.cachedWorld = none ∧
    c9BoxCopyW.2.dataOf.cachedWorld = some (Affine.idA.comp boxW.localOf) ∧
    c9BoxCopyW.2 ≠ boxW := by decide

/-- C9 (amended): under coherent caches, invertible world transforms and
well-formedness, a successful `copy()` returns a clone of the same concrete
variant, detached — its local transform is the source's world transform —
with all caches empty, occupying the same world pose as the source at every
path (each cloned child in particular sits at the corresponding original
child's world pose); the source is returned modified only in its caches:
erasing caches it equals the original. -/
theorem copy_spec (pw : Affine) (c k src : Component)
    (hok : Component.cacheOK pw c = true)
    (hinv : Component.worldsInvertible pw c = true)
    (hwf : Component.wellFormed c = true)
    (h : Component.copyC pw c = .ok (k, src)) :
    k.payloadOf.kindTag = c.payloadOf.kindTag ∧
    k.localOf = pw.comp c.localOf ∧
    k.allCleared = true ∧
    (∀ q, Component.trueWorldAt Affine.idA k q = Component.trueWorldAt pw c q) ∧
    src.eraseCaches = c.eraseCaches := by
  refine ⟨copy_kindTag pw c k src h, ?_, copy_allCleared pw c k src h,
    copy_trueWorld pw c k src hok hinv hwf h, copy_eraseCaches pw c k src h⟩
  rw [copyC_localOf pw c k src h]
  cases c with
  | node d cs =>
    show (d.getWorldD pw).1 = _
    rw [getWorldD_val pw d (cacheOK_worldCacheOK pw d cs hok)]
    rfl

/-- Concrete run of `copy_spec`: `Union(Box(1,1,1)).copy()` with no parent. -/
theorem copy_spec_witness :
    c9CopyW.1.payloadOf.kindTag = unionBoxW.payloadOf.kindTag ∧
    c9CopyW.1.localOf = Affine.idA.comp unionBoxW.localOf ∧
    c9CopyW.1.allCleared = true ∧
    (∀ q, Component.trueWorldAt Affine.idA c9CopyW.1 q =
      Component.trueWorldAt Affine.idA unionBoxW q) ∧
    c9CopyW.2.eraseCaches = unionBoxW.eraseCaches :=
  copy_spec Affine.idA unionBoxW c9CopyW.1 c9CopyW.2
    (by decide) (by decide) (by decide) (by decide)
